import Mathlib

/-!
# Verification of the Baidu Baike scraper extraction pipeline

A shallow embedding of the pure extraction/normalization core of
`selenium_baidu_scraper.py` (with `baidu_scraper.py` sharing most of the
same function bodies): the citation normalizer
(`clean_text_without_citations`, `format_text_with_citations`), the content
block extractor (`extract_content`), the table extractor (`extract_table`),
the section extractors, and the Markdown renderer
(`generate_markdown_content`).

HTML fragments are modelled as a `Node` tree (the information BeautifulSoup
exposes to this code: tag name, class list, a few attributes, children, and
text).  Python `str` values are modelled as `String`/`List Char`; Python
`int()` failures and `ValueError`s raised inside `re.sub` replacement
callbacks are modelled with `Except String`.  Regex substitutions are
modelled by deterministic scanners: each of the regexes used by the source
(`\[(\d+)\]\s+\[\1\]`, `\[([\d\-]+)\]`, `\[(\d+(?:,\s*\d+)*)\]`, `\[\d+\]`,
`level-(\d+)`, `^(\d+)\.(.*)`, `\[(\d+)(?:-(\d+))?\]`, `^\d+\s*`) is
deterministic at a given start position (its character classes are disjoint
from the characters that follow them), so leftmost-scan with single-character
advance on failure is exactly `re.sub`/`re.search`/`re.finditer` semantics.
Scanners that consume a matched region use a fuel parameter initialised with
the input length; every successful match consumes at least one character, so
this fuel is always sufficient.
-/

namespace Baike

/-! ## Python string primitives -/

/-- Python `\s` / `str.strip()` whitespace on the ASCII range
(unicode whitespace is not needed for the properties studied here). -/
def isPySpace (c : Char) : Bool :=
  c = ' ' || c = '\t' || c = '\n' || c = '\r' || c = '\x0b' || c = '\x0c'

/-- Python `str.strip()` on a character list. -/
def pyStripL (l : List Char) : List Char :=
  ((l.dropWhile isPySpace).reverse.dropWhile isPySpace).reverse

/-- Python `str.strip()`. -/
def pyStrip (s : String) : String :=
  ⟨pyStripL s.data⟩

/-- Numeric value of a digit string (total helper; callers only apply it to
all-digit strings, mirroring `int` applied to regex groups matched by `\d+`). -/
def digitVal (l : List Char) : Nat :=
  l.foldl (fun a c => a * 10 + (c.toNat - '0'.toNat)) 0

/-- Python `int()` on a string known to contain only digit characters:
fails (raises `ValueError`) when empty or when a non-digit appears. -/
def digitsToNat? (l : List Char) : Option Nat :=
  if l.isEmpty then none
  else if l.all Char.isDigit then some (digitVal l) else none

/-- Python `int()` on a general string (strip, optional sign, digits). -/
def pyInt? (s : String) : Option Int :=
  match pyStripL s.data with
  | '-' :: rest => (digitsToNat? rest).map (fun n => -(n : Int))
  | '+' :: rest => (digitsToNat? rest).map (fun n => (n : Int))
  | l => (digitsToNat? l).map (fun n => (n : Int))

/-- Python `sep.join(xs)` on character lists. -/
def joinWith (sep : List Char) : List (List Char) → List Char
  | [] => []
  | [x] => x
  | x :: y :: xs => x ++ sep ++ joinWith sep (y :: xs)

/-- Python `s.split(sep)` for a one-character separator. -/
def splitOnChar (sep : Char) : List Char → List (List Char)
  | [] => [[]]
  | c :: cs =>
    if c = sep then [] :: splitOnChar sep cs
    else
      match splitOnChar sep cs with
      | [] => [[c]]
      | h :: t => (c :: h) :: t

/-- Python `range(a, b + 1)` (the inclusive citation range). -/
def pyRange (a b : Nat) : List Nat :=
  List.range' a (b + 1 - a)

/-- Python `list.insert(i, x)` (clamping the index like Python does). -/
def pyInsert (l : List String) (i : Nat) (x : String) : List String :=
  l.take i ++ x :: l.drop i

/-- `m` repetitions of `row_data.insert(i, "")` (the colspan filler loop). -/
def repInsert (rd : List String) (i : Nat) : Nat → List String
  | 0 => rd
  | m + 1 => repInsert (pyInsert rd i "") i m

/-- The `while len(row) < n: row.append("")` padding loop. -/
def padTo (l : List String) (n : Nat) : List String :=
  l ++ List.replicate (n - l.length) ""

/-- Substring test (Python `in` on strings), as a Boolean scanner. -/
def isSubstrL (pat : List Char) : List Char → Bool
  | [] => pat.isEmpty
  | c :: cs => pat.isPrefixOf (c :: cs) || isSubstrL pat cs

/-- Substring test on `String`s. -/
def isSubstr (pat s : String) : Bool :=
  isSubstrL pat.data s.data

/-- Python `s.startswith(pfx)` (on the character-list model, since the
byte-based core `String` primitives do not reduce in the kernel). -/
def startsWithPy (s pfx : String) : Bool :=
  pfx.data.isPrefixOf s.data

/-- Python `sep.join(xs)` on `String`s. -/
def strJoinSep (sep : String) (xs : List String) : String :=
  ⟨joinWith sep.data (xs.map String.data)⟩

/-- Python `str.lower()` (character-wise). -/
def strLower (s : String) : String :=
  ⟨s.data.map Char.toLower⟩

/-- Python `str.replace(c, '')` for a single character. -/
def removeAllChar (c : Char) (s : String) : String :=
  ⟨s.data.filter (fun x => x ≠ c)⟩

/-- One pass of Python `str.replace(pat, '')` for a non-empty pattern,
fuelled by the input length. -/
def removeAllSubGo (pat : List Char) : Nat → List Char → List Char
  | 0, l => l
  | _ + 1, [] => []
  | fuel + 1, c :: cs =>
    if pat.isPrefixOf (c :: cs) && !pat.isEmpty then
      removeAllSubGo pat fuel ((c :: cs).drop pat.length)
    else c :: removeAllSubGo pat fuel cs

/-- Python `str.replace(pat, '')`. -/
def removeAllSub (pat s : String) : String :=
  ⟨removeAllSubGo pat.data s.data.length s.data⟩

/-- Stable ascending insertion by key: a new element goes after existing
elements with an equal key, as in Python's stable `sorted`. -/
def insertByKey {α : Type} (key : α → Nat) (x : α) : List α → List α
  | [] => [x]
  | y :: ys => if key x < key y then x :: y :: ys else y :: insertByKey key x ys

def pySortGo {α : Type} (key : α → Nat) (acc : List α) : List α → List α
  | [] => acc
  | x :: xs => pySortGo key (insertByKey key x acc) xs

/-- Python `sorted(l, key=key)` (stable, ascending). -/
def pySortByKey {α : Type} (key : α → Nat) (l : List α) : List α :=
  pySortGo key [] l

/-- Python `sorted` on naturals (`sorted(citation_numbers)`). -/
def sortNat (l : List Nat) : List Nat :=
  pySortByKey id l

/-- `s * n` for strings (Python string repetition, 0 for negative counts). -/
def strRepeat (s : String) (n : Nat) : String :=
  String.join (List.replicate n s)

/-- `'#' * k` with a possibly negative Python int count. -/
def charRepeat (c : Char) (k : Int) : String :=
  ⟨List.replicate k.toNat c⟩

/-! ## The HTML node model

`Node` is the view of a BeautifulSoup tree used by the scraper: elements with
a tag name, a (possibly multi-valued) `class` attribute and the few other
attributes the code reads, or navigable strings. -/

structure NodeAttrs where
  classes : List String := []
  idAttr : Option String := none
  dataModuleType : Option String := none
  colspan : Option String := none
  href : Option String := none
deriving Repr, DecidableEq

inductive Node where
  | text (s : String)
  | elem (tag : String) (attrs : NodeAttrs) (children : List Node)

def Node.tagOf : Node → String
  | .text _ => ""
  | .elem t _ _ => t

def Node.attrsOf : Node → NodeAttrs
  | .text _ => {}
  | .elem _ a _ => a

def Node.childrenOf : Node → List Node
  | .text _ => []
  | .elem _ _ cs => cs

def Node.classesOf (n : Node) : List String :=
  n.attrsOf.classes

mutual

/-- `get_text(strip=True)`: every descendant string stripped, concatenated. -/
def Node.getTextStrip : Node → String
  | .text s => pyStrip s
  | .elem _ _ cs => getTextStripList cs

def getTextStripList : List Node → String
  | [] => ""
  | n :: ns => n.getTextStrip ++ getTextStripList ns

end

mutual

/-- All descendants in document order (`find_all` search space; excludes
the node itself, like BeautifulSoup). -/
def Node.descendants : Node → List Node
  | .text _ => []
  | .elem _ _ cs => descList cs

def descList : List Node → List Node
  | [] => []
  | n :: ns => n :: n.descendants ++ descList ns

end

/-- `soup.find_all(pred)`. -/
def Node.findAll (p : Node → Bool) (n : Node) : List Node :=
  n.descendants.filter p

/-- `soup.find(pred)`. -/
def Node.find (p : Node → Bool) (n : Node) : Option Node :=
  (n.findAll p).head?

def tagIs (t : String) (n : Node) : Bool :=
  match n with
  | .elem tg _ _ => tg = t
  | .text _ => false

/-- `'c' in element.get('class', [])` / `find(class_='c')` membership. -/
def hasClassStr (c : String) (n : Node) : Bool :=
  n.classesOf.contains c

/-- `find(class_=lambda x: x and x.startswith(pfx))`: BeautifulSoup applies
the callable to each class of the multi-valued attribute. -/
def classStartsWith (pfx : String) (n : Node) : Bool :=
  n.classesOf.any (fun c => startsWithPy c pfx)

def idIs (i : String) (n : Node) : Bool :=
  n.attrsOf.idAttr = some i

mutual

/-- `for sup in soup.find_all('sup'): sup.decompose()`. -/
def Node.removeSups : Node → Node
  | .text s => .text s
  | .elem t a cs => .elem t a (removeSupsList cs)

def removeSupsList : List Node → List Node
  | [] => []
  | n :: ns =>
    if n.tagOf = "sup" then removeSupsList ns
    else n.removeSups :: removeSupsList ns

end

/-! ## The clean derivation of the citation normalizer -/

/-- `re.sub(r'\[\d+\]', '', text)`: drop every `[digits]` token. -/
def stripBracketNumsGo : Nat → List Char → List Char
  | 0, l => l
  | _ + 1, [] => []
  | fuel + 1, '[' :: cs =>
    let ds := cs.takeWhile Char.isDigit
    if ds.isEmpty then '[' :: stripBracketNumsGo fuel cs
    else
      match cs.dropWhile Char.isDigit with
      | ']' :: rest => stripBracketNumsGo fuel rest
      | _ => '[' :: stripBracketNumsGo fuel cs
  | fuel + 1, c :: cs => c :: stripBracketNumsGo fuel cs

def stripBracketNums (s : String) : String :=
  ⟨stripBracketNumsGo s.data.length s.data⟩

/-- `clean_text_without_citations` (selenium variant, lines 316–330): remove
all `sup` elements, take the visible text, erase remaining `[n]` patterns,
strip.  (The `baidu_scraper.py` variant omits the final regex erasure.) -/
def clean_text_without_citations (frag : Node) : String :=
  pyStrip (stripBracketNums (Node.getTextStrip (Node.removeSups frag)))

/-! ## The annotated derivation of the citation normalizer
(`format_text_with_citations`, selenium lines 332–431, identical in
`baidu_scraper.py` lines 79–178) -/

/-- Match of `\[(\d+)\]\s+\[\1\]` at the head of the list: returns the
replacement `[n]` and the remaining input.  The pattern is deterministic:
`\d+` is a maximal digit run followed by `]`, `\s+` a maximal whitespace run
followed by `[`, and the backreference must be followed by `]`. -/
def tryDup : List Char → Option (List Char × List Char)
  | '[' :: cs =>
    let ds := cs.takeWhile Char.isDigit
    if ds.isEmpty then none
    else
      match cs.dropWhile Char.isDigit with
      | ']' :: r3 =>
        let ws := r3.takeWhile isPySpace
        if ws.isEmpty then none
        else
          match r3.dropWhile isPySpace with
          | '[' :: r5 =>
            if ds.isPrefixOf r5 then
              match r5.drop ds.length with
              | ']' :: r6 => some ('[' :: ds ++ [']'], r6)
              | _ => none
            else none
          | _ => none
      | _ => none
  | _ => none

/-- `re.sub(r'\[(\d+)\]\s+\[\1\]', r'[\1]', text)` (duplicate collapse). -/
def collapseDupGo : Nat → List Char → List Char
  | 0, l => l
  | _ + 1, [] => []
  | fuel + 1, c :: cs =>
    match tryDup (c :: cs) with
    | some (rep, rest) => rep ++ collapseDupGo fuel rest
    | none => c :: collapseDupGo fuel cs

def collapseDup (l : List Char) : List Char :=
  collapseDupGo l.length l

def isRangeChar (c : Char) : Bool :=
  c.isDigit || c = '-'

/-- The body of `replace_range_citations` (selenium lines 354–361): for a
group matched by `\[([\d\-]+)\]`, expand `a-b` to the inclusive list, leave
dash-free groups untouched, and raise `ValueError` when
`start, end = map(int, range_str.split('-'))` fails (empty bound or more
than one dash). -/
def replace_range_citations (g : List Char) : Except String (List Char) :=
  if g.contains '-' then
    match (splitOnChar '-' g).map digitsToNat? with
    | [some a, some b] =>
      .ok ('[' :: joinWith ", ".data ((pyRange a b).map (fun n => (toString n).data)) ++ [']'])
    | _ => .error "ValueError"
  else .ok ('[' :: g ++ [']'])

/-- Match of `\[([\d\-]+)\]` at the head of the list. -/
def tryRange : List Char → Option (Except String (List Char) × List Char)
  | '[' :: cs =>
    let g := cs.takeWhile isRangeChar
    if g.isEmpty then none
    else
      match cs.dropWhile isRangeChar with
      | ']' :: rest => some (replace_range_citations g, rest)
      | _ => none
  | _ => none

/-- `re.sub(r'\[([\d\-]+)\]', replace_range_citations, text)`; an exception
raised by the replacement callback propagates out of `re.sub`. -/
def expandRangesGo : Nat → List Char → Except String (List Char)
  | 0, l => .ok l
  | _ + 1, [] => .ok []
  | fuel + 1, c :: cs =>
    match tryRange (c :: cs) with
    | some (rep, rest) => do
      let r ← rep
      let tl ← expandRangesGo fuel rest
      pure (r ++ tl)
    | none => do
      let tl ← expandRangesGo fuel cs
      pure (c :: tl)

def expandRangesL (l : List Char) : Except String (List Char) :=
  expandRangesGo l.length l

def expandRanges (s : String) : Except String String :=
  (expandRangesL s.data).map (fun l => ⟨l⟩)

/-- A citation group's character span: `match.start()`, `match.end()`, and
`match.group(1)` of the pattern `\[(\d+(?:,\s*\d+)*)\]`. -/
structure Span where
  start : Nat
  stop : Nat
  nums : List Char
deriving Repr, DecidableEq

/-- Consume `(?:,\s*\d+)*` greedily; returns the consumed characters and
the rest.  Each unit consumes at least two characters, so fuel equal to the
input length is sufficient. -/
def citUnitsGo : Nat → List Char → List Char × List Char
  | 0, l => ([], l)
  | _ + 1, [] => ([], [])
  | fuel + 1, ',' :: cs =>
    let sp := cs.takeWhile isPySpace
    let r2 := cs.dropWhile isPySpace
    let ds := r2.takeWhile Char.isDigit
    if ds.isEmpty then ([], ',' :: cs)
    else
      let (more, rest) := citUnitsGo fuel (r2.dropWhile Char.isDigit)
      (',' :: (sp ++ ds ++ more), rest)
  | _ + 1, c :: cs => ([], c :: cs)

/-- Match of `\[(\d+(?:,\s*\d+)*)\]` at the head of the list: returns the
group, the number of characters consumed, and the rest. -/
def tryCit (l : List Char) : Option (List Char × Nat × List Char) :=
  match l with
  | '[' :: cs =>
    let ds := cs.takeWhile Char.isDigit
    if ds.isEmpty then none
    else
      let r2 := cs.dropWhile Char.isDigit
      let (units, r3) := citUnitsGo r2.length r2
      match r3 with
      | ']' :: rest => some (ds ++ units, ds.length + units.length + 2, rest)
      | _ => none
  | _ => none

/-- `re.finditer(r'\[(\d+(?:,\s*\d+)*)\]', text)` with character offsets. -/
def scanCitsGo : Nat → Nat → List Char → List Span
  | 0, _, _ => []
  | _ + 1, _, [] => []
  | fuel + 1, pos, c :: cs =>
    match tryCit (c :: cs) with
    | some (grp, n, rest) => ⟨pos, pos + n, grp⟩ :: scanCitsGo fuel (pos + n) rest
    | none => scanCitsGo fuel (pos + 1) cs

def scanCits (l : List Char) : List Span :=
  scanCitsGo l.length 0 l

/-- The greedy grouping loop (selenium lines 381–408): extend the current
group while the next span starts within 3 characters of the previous span's
end, else close it and start a new one; the last group is flushed. -/
def groupAdjacentGo : List Span → Span → List Span → List (List Span)
  | cur, _, [] => [cur]
  | cur, lst, s :: rest =>
    if s.start - lst.stop ≤ 3 then groupAdjacentGo (cur ++ [s]) s rest
    else cur :: groupAdjacentGo [s] s rest

def groupAdjacent : List Span → List (List Span)
  | [] => []
  | s :: rest => groupAdjacentGo [s] s rest

/-- `[num.strip() for num in citation.split(',')]`. -/
def spanNums (sp : Span) : List (List Char) :=
  (splitOnChar ',' sp.nums).map pyStripL

/-- `all_numbers` accumulated over a cluster. -/
def clusterNums (cl : List Span) : List (List Char) :=
  cl.flatMap spanNums

/-- `sorted(set(all_numbers), key=int)`.  A Python `set` has no specified
iteration order; we model it as `dedup`, which agrees with any ascending
`key=int` sort whenever the deduplicated values have distinct integer
values (always the case here except for strings with leading zeros). -/
def sortedUniqueNums (xs : List (List Char)) : List (List Char) :=
  pySortByKey digitVal xs.dedup

/-- `f"[{', '.join(sorted(set(all_numbers), key=int))}]"`. -/
def combinedCitation (cl : List Span) : List Char :=
  '[' :: joinWith ", ".data (sortedUniqueNums (clusterNums cl)) ++ [']']

/-- `min(p[0] for p in positions)`. -/
def minStart : List Span → Nat
  | [] => 0
  | s :: ss => ss.foldl (fun m sp => min m sp.start) s.start

/-- `max(p[1] for p in positions)`. -/
def maxStop : List Span → Nat
  | [] => 0
  | s :: ss => ss.foldl (fun m sp => max m sp.stop) s.stop

/-- The replacement loop (selenium lines 410–429): for each cluster of more
than one group, from the rightmost cluster to the leftmost, splice the
combined citation over the cluster's full span. -/
def applyMerges (text : List Char) (clusters : List (List Span)) : List Char :=
  clusters.reverse.foldl
    (fun acc cl =>
      if 1 < cl.length then
        acc.take (minStart cl) ++ combinedCitation cl ++ acc.drop (maxStop cl)
      else acc)
    text

/-- Steps 4–6 of the annotated derivation on an already-expanded text. -/
def mergeAdjacentCitations (l : List Char) : List Char :=
  applyMerges l (groupAdjacent (scanCits l))

/-- The text-processing pipeline of `format_text_with_citations` applied to
the stripped visible text when the fragment contains citation markers:
duplicate collapse, range expansion, adjacency merging, final strip. -/
def processCitationTextL (l : List Char) : Except String (List Char) := do
  let t1 := collapseDup l
  let t2 ← expandRangesL t1
  pure (pyStripL (mergeAdjacentCitations t2))

def processCitationText (s : String) : Except String String :=
  (processCitationTextL s.data).map (fun l => ⟨l⟩)

/-- `format_text_with_citations` (selenium lines 332–431): with no `sup`
descendant the stripped text is returned unchanged; otherwise the stripped
text goes through the full pipeline. -/
def format_text_with_citations (frag : Node) : Except String String :=
  if (frag.findAll (tagIs "sup")).isEmpty then .ok frag.getTextStrip
  else processCitationText frag.getTextStrip

/-! ## The table extractor (`extract_table`, selenium lines 504–572) -/

structure TableData where
  headers : List String
  rows : List (List String)
deriving Repr, DecidableEq

def tdCellsOf (row : Node) : List Node :=
  row.findAll (tagIs "td")

/-- Header extraction: all `th` texts, else the first `tr`'s cells. -/
def tableHeaders (t : Node) : List String :=
  let ths := t.findAll (tagIs "th")
  if !ths.isEmpty then ths.map Node.getTextStrip
  else
    match t.find (tagIs "tr") with
    | none => []
    | some fr => (fr.findAll (fun n => tagIs "th" n || tagIs "td" n)).map Node.getTextStrip

/-- `max_cols` (selenium lines 531–535): the maximum of the header length
and each row's `td`-cell count — counted before any colspan expansion. -/
def table_max_cols (t : Node) : Nat :=
  (t.findAll (tagIs "tr")).foldl (fun m r => max m (tdCellsOf r).length)
    (tableHeaders t).length

/-- One step of the colspan loop (selenium lines 545–556): `i` is the cell's
index in the original cell list; a parseable span `k > 1` inserts `k - 1`
empty strings at position `i + 1` of the evolving row; `int()` failures are
caught and leave the row unchanged; an empty attribute is falsy and skipped. -/
def applySpan (rd : List String) (i : Nat) (cell : Node) : List String :=
  match cell.attrsOf.colspan with
  | none => rd
  | some s =>
    if s = "" then rd
    else
      match pyInt? s with
      | none => rd
      | some k => if 1 < k then repInsert rd (i + 1) (k - 1).toNat else rd

/-- `for i, cell in enumerate(cells): ...` over the original cell list. -/
def expandRowGo (rd : List String) (i : Nat) : List Node → List String
  | [] => rd
  | c :: cs => expandRowGo (applySpan rd i c) (i + 1) cs

def expandRow (cells : List Node) : List String :=
  expandRowGo (cells.map Node.getTextStrip) 0 cells

/-- Row processing: rows with no `td` cells are skipped; others are
span-expanded then padded to `max_cols`. -/
def processRow (row : Node) (maxCols : Nat) : Option (List String) :=
  let cells := tdCellsOf row
  if cells.isEmpty then none
  else some (padTo (expandRow cells) maxCols)

def extract_table (t : Node) : TableData :=
  let headers := tableHeaders t
  let trs := t.findAll (tagIs "tr")
  let startIdx := if !headers.isEmpty && trs.length > 0 then 1 else 0
  let mc := table_max_cols t
  ⟨headers, (trs.drop startIdx).filterMap (fun r => processRow r mc)⟩

/-! ## The content block extractor (`extract_content`, selenium lines
574–697; the `baidu_scraper.py` variant lines 248–338 lacks only the table
branch) -/

inductive Payload where
  | txt (s : String)
  | tbl (t : TableData)
deriving Repr, DecidableEq

/-- One entry of the `content` / `content_with_citations` sequences:
`{'type': ..., 'text': ...}`. -/
structure Entry where
  type : String
  payload : Payload
deriving Repr, DecidableEq

/-- `re.search(pat ++ r'(\d+)', s)`: value of the first occurrence of the
literal prefix followed by at least one digit (the regex retries at each
later position when no digits follow, exactly like this scanner). -/
def searchNumAfter (pat : List Char) : List Char → Option Nat
  | [] => none
  | c :: cs =>
    let ds := ((c :: cs).drop pat.length).takeWhile Char.isDigit
    if pat.isPrefixOf (c :: cs) && !ds.isEmpty then some (digitVal ds)
    else searchNumAfter pat cs

/-- The heading branch: one `h{level}` block per class matching
`level-(\d+)`, with text from the `h{level+1}` descendant if present. -/
def headingEntriesOf (el : Node) : List Entry :=
  el.classesOf.filterMap (fun cn =>
    if startsWithPy cn "level-" then
      match searchNumAfter "level-".data cn.data with
      | some lv =>
        let txt :=
          match el.find (tagIs ("h" ++ toString (lv + 1))) with
          | some h => h.getTextStrip
          | none => el.getTextStrip
        some ⟨"h" ++ toString lv, .txt txt⟩
      | none => none
    else none)

/-- `"table" in element.get('data-module-type', [])`: a substring test on
the attribute string, false when the attribute is absent. -/
def moduleTypeHasTable (el : Node) : Bool :=
  match el.attrsOf.dataModuleType with
  | none => false
  | some s => isSubstr "table" s

/-- Monadic map over `Except` (`[... for li in items]` with a fallible
body; the first exception propagates). -/
def mapME {α β : Type} (f : α → Except String β) : List α → Except String (List β)
  | [] => .ok []
  | x :: xs => do
    let y ← f x
    let ys ← mapME f xs
    pure (y :: ys)

/-- Both normalizer variants applied to one list item / cell fragment. -/
def dualOf (n : Node) (ty : String) : Except String (Entry × Entry) := do
  let c := clean_text_without_citations n
  let a ← format_text_with_citations n
  pure (⟨ty, .txt c⟩, ⟨ty, .txt a⟩)

/-- Classification of one direct child of the content container, producing
the entries appended to the clean and to the annotated sequence. -/
def processChild (el : Node) : Except String (List Entry × List Entry) :=
  if el.classesOf.contains "paraTitle_WslP_" then
    let hs := headingEntriesOf el
    .ok (hs, hs)
  else if el.classesOf.contains "content_pzMvr" then do
    let (c, a) ← dualOf el "paragraph"
    pure ([c], [a])
  else if el.classesOf.contains "ordered_PAfTw" then do
    let pairs ← mapME (fun li => dualOf li "ol") (el.findAll (tagIs "li"))
    pure (pairs.map Prod.fst, pairs.map Prod.snd)
  else if el.classesOf.contains "unordered_ev4ae" then do
    let pairs ← mapME (fun li => dualOf li "ul") (el.findAll (tagIs "li"))
    pure (pairs.map Prod.fst, pairs.map Prod.snd)
  else if moduleTypeHasTable el then do
    let td := extract_table el
    let cleanRows := td.rows.map (fun r =>
      r.map (fun cell => clean_text_without_citations (Node.text cell)))
    let annRows ← mapME (fun r =>
      mapME (fun cell => format_text_with_citations (Node.text cell)) r) td.rows
    pure ([⟨"table", .tbl ⟨td.headers, cleanRows⟩⟩],
          [⟨"table", .tbl ⟨td.headers, annRows⟩⟩])
  else .ok ([], [])

/-- The per-child accumulation loop: the clean and annotated entries of
each classified child are appended to the respective sequence. -/
def contentFold : List Node → List Entry × List Entry →
    Except String (List Entry × List Entry)
  | [], acc => .ok acc
  | ch :: rest, acc => do
    let (c, a) ← processChild ch
    contentFold rest (acc.1 ++ c, acc.2 ++ a)

/-- `extract_content`: direct `div`/`ol`/`ul` children of the content
container classified in order; a missing container yields two empty
sequences. -/
def extract_content (soup : Node) : Except String (List Entry × List Entry) :=
  match soup.find (fun n => tagIs "div" n && hasClassStr "J-lemma-content" n) with
  | none => .ok ([], [])
  | some d =>
    contentFold
      (d.childrenOf.filter
        (fun c => c.tagOf = "div" || c.tagOf = "ol" || c.tagOf = "ul"))
      ([], [])

/-! ## Section extractors (selenium lines 302–314, 433–502, 699–814) -/

structure DualText where
  clean : String
  withCitations : String
deriving Repr, DecidableEq

def extract_title (soup : Node) : String :=
  match soup.find (fun n => tagIs "h1" n && hasClassStr "J-lemma-title" n) with
  | some d => d.getTextStrip
  | none => ""

def extract_short_description (soup : Node) : String :=
  match soup.find (fun n => tagIs "div" n && idIs "lemmaDesc" n) with
  | some d => d.getTextStrip
  | none => ""

def extract_abstract (soup : Node) : Except String DualText :=
  match soup.find (fun n => tagIs "div" n && hasClassStr "lemmaSummary_yKMC1" n) with
  | none => .ok ⟨"", ""⟩
  | some d => do
    let c := clean_text_without_citations d
    let a ← format_text_with_citations d
    pure ⟨c, a⟩

/-- Python `dict` insertion: replace in place when the key exists, else
append (keys are attribute names, unique per document in practice). -/
def upsert (m : List (String × String)) (k v : String) : List (String × String) :=
  if m.any (fun p => p.1 = k) then m.map (fun p => if p.1 = k then (k, v) else p)
  else m ++ [(k, v)]

def extract_info_box (soup : Node) :
    Except String (List (String × String) × List (String × String)) :=
  match soup.find (fun n => tagIs "div" n && hasClassStr "J-basic-info" n) with
  | none => .ok ([], [])
  | some d =>
    (d.findAll (fun n => tagIs "div" n && hasClassStr "itemWrapper_ZNZh3" n)).foldlM
      (fun (acc : List (String × String) × List (String × String)) item =>
        match item.find (fun n => tagIs "dt" n && hasClassStr "itemName_LS0Jv" n),
              item.find (fun n => tagIs "dd" n && hasClassStr "itemValue_AYbkR" n) with
        | some nm, some vl => do
          let k := nm.getTextStrip
          let c := clean_text_without_citations vl
          let a ← format_text_with_citations vl
          pure (upsert acc.1 k c, upsert acc.2 k a)
        | _, _ => pure acc)
      ([], [])

structure TocEntry where
  level : Nat
  text : String
deriving Repr, DecidableEq

/-- `re.sub(r'^\d+\s*', '', text)`: anchored, so it only strips a leading
digit run (and following whitespace) when one exists. -/
def stripLeadingNumber (l : List Char) : List Char :=
  if (l.takeWhile Char.isDigit).isEmpty then l
  else (l.dropWhile Char.isDigit).dropWhile isPySpace

def extract_toc (soup : Node) : List TocEntry :=
  match soup.find (fun n => tagIs "div" n && hasClassStr "catalogList_MR9Nd" n) with
  | none => []
  | some d =>
    (d.findAll (tagIs "li")).map (fun li =>
      let className := li.classesOf.headD ""
      let level :=
        if startsWithPy className "level" then
          (searchNumAfter "level".data className.data).getD 0
        else 0
      let t0 := removeAllChar '▪' li.getTextStrip
      let t1 := if level = 1 then (⟨stripLeadingNumber t0.data⟩ : String) else t0
      ⟨level, t1⟩)

structure Reference where
  id : String
  title : String
  url : String
  ref_date : String
deriving Repr, DecidableEq

/-- BeautifulSoup `.string`: the single navigable string reached through a
chain of single children, else `None`. -/
def nodeStringOf : Node → Option String
  | .text s => some s
  | .elem _ _ [c] => nodeStringOf c
  | .elem _ _ _ => none

/-- `re.search(r'\[(\d+)(?:-(\d+))?\]', s)`: first single-number or range
citation token. -/
def searchCitNumRange : List Char → Option (Nat × Option Nat)
  | [] => none
  | '[' :: cs =>
    (let ds := cs.takeWhile Char.isDigit
     if ds.isEmpty then searchCitNumRange cs
     else
       match cs.dropWhile Char.isDigit with
       | ']' :: _ => some (digitVal ds, none)
       | '-' :: r2 =>
         let ds2 := r2.takeWhile Char.isDigit
         if ds2.isEmpty then searchCitNumRange cs
         else
           match r2.dropWhile Char.isDigit with
           | ']' :: _ => some (digitVal ds, some (digitVal ds2))
           | _ => searchCitNumRange cs
       | _ => searchCitNumRange cs)
  | _ :: cs => searchCitNumRange cs

/-- The fallback path (selenium lines 779–812): distinct citation numbers
found in `sup` markers, ranges expanded, sorted ascending. -/
def citationNumbersOf (soup : Node) : List Nat :=
  sortNat (((soup.findAll (tagIs "sup")).flatMap (fun sup =>
    match searchCitNumRange sup.getTextStrip.data with
    | some (a, some b) => pyRange a b
    | some (a, none) => [a]
    | none => [])).dedup)

def placeholderReferences (soup : Node) : List Reference :=
  (citationNumbersOf soup).map (fun n =>
    ⟨toString n, "Reference " ++ toString n, "", ""⟩)

/-- The `[引用日期 ...]` trailing-date cleanup (selenium lines 741–749). -/
def refDateText (item : Node) : String :=
  match item.find (fun n => tagIs "span" n &&
      (match nodeStringOf n with
       | some s => startsWithPy s " [引用日期"
       | none => false)) with
  | none => ""
  | some sp =>
    pyStrip (removeAllChar ']'
      (pyStrip (removeAllSub "引用日期" (pyStrip (removeAllChar '[' sp.getTextStrip)))))

/-- URL normalization (selenium lines 752–756).  A missing `href` is
modelled as the empty string (Python stores `None`, which every later
truthiness test treats like an empty string). -/
def normalizeRefUrl (u : String) : String :=
  if u ≠ "" && !(startsWithPy u "http://" || startsWithPy u "https://") then
    if startsWithPy u "//" then "https:" ++ u
    else if startsWithPy u "/" then "https://baike.baidu.com" ++ u
    else u
  else u

def referenceOfItem (i : Nat) (item : Node) : Reference :=
  let link := item.find (fun n => tagIs "a" n && classStartsWith "refLink" n)
  let url0 := match link with
    | some a => (a.attrsOf.href).getD ""
    | none => ""
  let titl := match link with
    | some a => a.getTextStrip
    | none => ""
  ⟨toString i, titl, normalizeRefUrl url0, refDateText item⟩

/-- `extract_references` (selenium lines 699–814). -/
def extract_references (soup : Node) : List Reference :=
  let fromList :=
    match soup.find (fun n => tagIs "div" n && classStartsWith "lemmaReference" n) with
    | none => []
    | some refDiv =>
      let refList :=
        match refDiv.find (fun n => tagIs "ul" n && classStartsWith "referenceList" n) with
        | some l => l
        | none =>
          match refDiv.find (tagIs "ul") with
          | some l => l
          | none => refDiv
      let items0 := refList.findAll (tagIs "li")
      let items :=
        if items0.isEmpty then
          refList.findAll (fun n =>
            (tagIs "p" n || tagIs "div" n || tagIs "span" n) &&
            n.classesOf.any (fun c => isSubstr "reference" (strLower c)))
        else items0
      items.enum.map (fun p => referenceOfItem (p.1 + 1) p.2)
  if fromList.isEmpty then placeholderReferences soup else fromList

/-! ## The Markdown renderer (`generate_markdown_content`, selenium lines
839–1026) -/

/-- The page data handed to the renderer. -/
structure PageData where
  title : String
  short_description : String
  abstract : DualText
  info_box_clean : List (String × String)
  info_box_cit : List (String × String)
  toc : List TocEntry
  content_clean : List Entry
  content_cit : List Entry
  references : List Reference

def payloadText : Payload → String
  | .txt s => s
  | .tbl _ => ""

def payloadTable : Payload → TableData
  | .tbl t => t
  | .txt _ => ⟨[], []⟩

/-- One data row of a pipe table: padded, then truncated, to `n` cells. -/
def renderMdRow (row : List String) (n : Nat) : String :=
  "| " ++ strJoinSep " | " ((padTo row n).take n) ++ " |\n"

/-- `render_table_markdown` (selenium lines 888–940). -/
def render_table_markdown (t : TableData) : String :=
  (if !t.headers.isEmpty then
    "| " ++ strJoinSep " | " t.headers ++ " |\n" ++
    "| " ++ strJoinSep " | " (List.replicate t.headers.length "---") ++ " |\n" ++
    String.join (t.rows.map (fun r => renderMdRow r t.headers.length))
  else if !t.rows.isEmpty then
    let n := (t.rows.headD []).length
    if 0 < n then
      "| " ++ strJoinSep " | " (List.replicate n "") ++ " |\n" ++
      "| " ++ strJoinSep " | " (List.replicate n "---") ++ " |\n" ++
      String.join (t.rows.map (fun r => renderMdRow r n))
    else "*Empty table*\n\n"
  else "*Empty table*\n\n") ++ "\n"

/-- `re.match(r'^(\d+)\.(.*)', text)`: leading numeral, dot, and the rest of
the first line (`.` does not match a newline). -/
def parseOlNum (s : String) : Option (String × String) :=
  let ds := s.data.takeWhile Char.isDigit
  if ds.isEmpty then none
  else
    match s.data.dropWhile Char.isDigit with
    | '.' :: rest => some (⟨ds⟩, ⟨rest.takeWhile (fun c => c ≠ '\n')⟩)
    | _ => none

/-- The ordered-item branch of the renderer: re-emit `"{number}. {rest}"`,
or emit nothing at all when the text has no leading numeral. -/
def renderOlItem (s : String) : String :=
  match parseOlNum s with
  | some (n, rest) => n ++ ". " ++ rest ++ "\n\n"
  | none => ""

/-- The table branch of the renderer (`item.get('text', {})` truthiness plus
`headers or rows`). -/
def renderTableItem (p : Payload) : String :=
  match p with
  | .tbl td =>
    if !td.headers.isEmpty || !td.rows.isEmpty then
      "**Table:**\n\n" ++ render_table_markdown td
    else "*Empty table*\n\n"
  | .txt _ => "*Empty table*\n\n"

/-- One content entry rendered to Markdown (the per-item body of the
`for item in data['content'][...]` loops). -/
def renderContentItem (it : Entry) : Except String String :=
  if startsWithPy it.type "h" then
    match pyInt? (⟨it.type.data.drop 1⟩ : String) with
    | some k => .ok (charRepeat '#' k ++ " " ++ payloadText it.payload ++ "\n\n")
    | none => .error "ValueError"
  else if it.type = "ol" then .ok (renderOlItem (payloadText it.payload))
  else if it.type = "ul" then .ok ("- " ++ payloadText it.payload ++ "\n\n")
  else if it.type = "table" then .ok (renderTableItem it.payload)
  else .ok (payloadText it.payload ++ "\n\n")

def renderContentList (items : List Entry) : Except String String := do
  let parts ← items.mapM renderContentItem
  pure (String.join parts)

def renderInfoLines (m : List (String × String)) : String :=
  String.join (m.map (fun p => "**" ++ p.1 ++ "**: " ++ p.2 ++ "\n"))

def renderTocLines (toc : List TocEntry) : String :=
  String.join (toc.map (fun it => strRepeat "  " (it.level - 1) ++ "- " ++ it.text ++ "\n"))

def renderRefLine (r : Reference) : String :=
  let ds := if r.ref_date ≠ "" then " (引用日期：" ++ r.ref_date ++ ")" else ""
  if r.url ≠ "" then r.id ++ ". [" ++ r.title ++ "](" ++ r.url ++ ")" ++ ds ++ "\n"
  else r.id ++ ". " ++ r.title ++ " " ++ ds ++ "\n"

/-- `generate_markdown_content` (selenium lines 839–1026): both Markdown
strings are assembled section by section in a fixed order; every section
after the title is gated on the truthiness of its (clean) data, and the
abstract and content sections of the `with_citations` output are gated on
the *clean* variant being non-empty. -/
def generate_markdown_content (d : PageData) : Except String (String × String) := do
  let titleSec := "# " ++ d.title ++ "\n\n"
  let descSec := if d.short_description ≠ "" then d.short_description ++ "\n\n" else ""
  let absC := if d.abstract.clean ≠ "" then
      "## Abstract\n\n" ++ d.abstract.clean ++ "\n\n" else ""
  let absA := if d.abstract.clean ≠ "" then
      "## Abstract\n\n" ++ d.abstract.withCitations ++ "\n\n" else ""
  let infoC := if !d.info_box_clean.isEmpty then
      "## Information\n\n" ++ renderInfoLines d.info_box_clean ++ "\n" else ""
  let infoA := if !d.info_box_clean.isEmpty then
      "## Information\n\n" ++ renderInfoLines d.info_box_cit ++ "\n" else ""
  let tocSec := if !d.toc.isEmpty then
      "## Table of Contents\n\n" ++ renderTocLines d.toc ++ "\n" else ""
  let contentSecs ←
    if d.content_clean.isEmpty then pure ("", "")
    else do
      let c ← renderContentList d.content_clean
      let a ← renderContentList d.content_cit
      pure ("## Content\n\n" ++ c, "## Content\n\n" ++ a)
  let refsSec := if !d.references.isEmpty then
      "## References\n\n" ++ String.join (d.references.map renderRefLine) else ""
  pure (titleSec ++ descSec ++ absC ++ infoC ++ tocSec ++ contentSecs.1 ++ refsSec,
        titleSec ++ descSec ++ absA ++ infoA ++ tocSec ++ contentSecs.2 ++ refsSec)

/-! ## Specification-side definitions used in the statements below -/

/-- The adjacency condition of the grouping loop. -/
def gapClose (x y : Span) : Prop :=
  y.start - x.stop ≤ 3

/-- Two consecutive clusters are separated by more than 3 characters. -/
def clusterSep (g h : List Span) : Prop :=
  ∀ x ∈ g.getLast?, ∀ y ∈ h.head?, ¬ gapClose x y

/-- The number of filler cells the colspan loop inserts for one cell
(`k - 1` for a parseable span `k > 1`, else `0`). -/
def spanExtraOf (cell : Node) : Nat :=
  match cell.attrsOf.colspan with
  | none => 0
  | some s =>
    if s = "" then 0
    else
      match pyInt? s with
      | none => 0
      | some k => if 1 < k then (k - 1).toNat else 0

/-- Decidable equality for `Except` results (used to evaluate concrete
runs of the fallible pipeline). -/
instance {e a : Type} [DecidableEq e] [DecidableEq a] : DecidableEq (Except e a) :=
  fun x y =>
    match x, y with
    | .ok u, .ok v =>
      if h : u = v then .isTrue (by rw [h])
      else .isFalse (by intro hc; cases hc; exact h rfl)
    | .error u, .error v =>
      if h : u = v then .isTrue (by rw [h])
      else .isFalse (by intro hc; cases hc; exact h rfl)
    | .ok _, .error _ => .isFalse (by intro hc; cases hc)
    | .error _, .ok _ => .isFalse (by intro hc; cases hc)

/-! ## General helper lemmas -/

theorem length_dropWhile_le (p : Char → Bool) (l : List Char) :
    (l.dropWhile p).length ≤ l.length := by
  induction l with
  | nil => simp
  | cons c cs ih =>
    by_cases h : p c
    · simp only [List.dropWhile, h]
      exact ih.trans (by simp)
    · simp [List.dropWhile, h]

theorem takeWhile_all_append (p : Char → Bool) (xs : List Char) (y : Char)
    (ys : List Char) (hxs : ∀ x ∈ xs, p x = true) (hy : p y = false) :
    (xs ++ y :: ys).takeWhile p = xs := by
  induction xs with
  | nil => simpa using List.takeWhile_cons_of_neg (l := ys) (by simp [hy])
  | cons x xs ih =>
    have hx : p x = true := hxs x (by simp)
    rw [List.cons_append, List.takeWhile_cons_of_pos hx,
      ih (fun z hz => hxs z (by simp [hz]))]

theorem dropWhile_all_append (p : Char → Bool) (xs : List Char) (y : Char)
    (ys : List Char) (hxs : ∀ x ∈ xs, p x = true) (hy : p y = false) :
    (xs ++ y :: ys).dropWhile p = y :: ys := by
  induction xs with
  | nil => simpa using List.dropWhile_cons_of_neg (l := ys) (by simp [hy])
  | cons x xs ih =>
    have hx : p x = true := hxs x (by simp)
    rw [List.cons_append, List.dropWhile_cons_of_pos hx,
      ih (fun z hz => hxs z (by simp [hz]))]

theorem dropWhile_cons_false (p : Char → Bool) (c : Char) (l : List Char)
    (h : p c = false) : (c :: l).dropWhile p = c :: l :=
  List.dropWhile_cons_of_neg (by simp [h])

/-- Stripping a string that starts and ends with a non-space character is
the identity. -/
theorem pyStripL_bracketed (a b : Char) (l : List Char)
    (ha : isPySpace a = false) (hb : isPySpace b = false) :
    pyStripL (a :: l ++ [b]) = a :: l ++ [b] := by
  unfold pyStripL
  rw [show a :: l ++ [b] = a :: (l ++ [b]) by simp,
    dropWhile_cons_false _ _ _ ha]
  rw [show (a :: (l ++ [b])).reverse = b :: (l.reverse ++ [a]) by simp,
    dropWhile_cons_false _ _ _ hb]
  simp

/-! ## Claim C6: the clean derivation removes every citation marker -/

theorem tagOf_removeSups (n : Node) : (Node.removeSups n).tagOf = n.tagOf := by
  cases n <;> simp [Node.removeSups, Node.tagOf]

theorem tagIs_sup_eq (m : Node) : tagIs "sup" m = decide (m.tagOf = "sup") := by
  cases m with
  | text s => simp [tagIs, Node.tagOf]
  | elem t a cs => simp [tagIs, Node.tagOf]

mutual

theorem removeSups_clean (n : Node) :
    (Node.removeSups n).descendants.filter (tagIs "sup") = [] := by
  cases n with
  | text s => simp [Node.removeSups, Node.descendants]
  | elem t a cs =>
    simpa [Node.removeSups, Node.descendants] using removeSupsList_clean cs

theorem removeSupsList_clean (ns : List Node) :
    (descList (removeSupsList ns)).filter (tagIs "sup") = [] := by
  match ns with
  | [] => simp [removeSupsList, descList]
  | n :: ns' =>
    by_cases h : n.tagOf = "sup"
    · simpa [removeSupsList, h] using removeSupsList_clean ns'
    · have htag : tagIs "sup" (Node.removeSups n) = false := by
        rw [tagIs_sup_eq, tagOf_removeSups]
        simp [h]
      simp only [removeSupsList, h, if_false, descList, List.filter_append,
        List.filter_cons, htag]
      rw [removeSups_clean n, removeSupsList_clean ns']
      simp

end

mutual

theorem removeSups_idem (n : Node) :
    Node.removeSups (Node.removeSups n) = Node.removeSups n := by
  cases n with
  | text s => rfl
  | elem t a cs =>
    simp only [Node.removeSups]
    rw [removeSupsList_idem cs]

theorem removeSupsList_idem (ns : List Node) :
    removeSupsList (removeSupsList ns) = removeSupsList ns := by
  match ns with
  | [] => rfl
  | n :: ns' =>
    by_cases h : n.tagOf = "sup"
    · simp only [removeSupsList, h, if_true]
      exact removeSupsList_idem ns'
    · simp only [removeSupsList, h, if_false]
      simp only [removeSupsList, tagOf_removeSups, h, if_false]
      rw [removeSups_idem n, removeSupsList_idem ns']

end

/-- C6.  The clean derivation first decomposes every `sup` (citation-marker)
element and only then extracts the visible text: (1) after `removeSups` no
`sup` element remains anywhere in the fragment, (2) the clean text of a
fragment equals the clean text of the same fragment with all markers
already deleted — so no character of the output originates from a marker
element — and (3) on a concrete fragment the marker text `[1]` is gone from
the visible text (the surrounding fragments are individually stripped, as
`get_text(strip=True)` does). -/
theorem C6_clean_text_removes_citation_markers :
    (∀ f : Node, (Node.removeSups f).findAll (tagIs "sup") = []) ∧
    (∀ f : Node,
      clean_text_without_citations f =
        clean_text_without_citations (Node.removeSups f)) ∧
    clean_text_without_citations
      (Node.elem "div" {} [Node.text "Hello",
        Node.elem "sup" {} [Node.text "[1]"], Node.text " world"]) = "Helloworld" := by
  refine ⟨fun f => ?_, fun f => ?_, by rfl⟩
  · simpa [Node.findAll] using removeSups_clean f
  · unfold clean_text_without_citations
    rw [removeSups_idem f]

/-! ## Claim C8: collapse of duplicated identical bracket groups -/

theorem collapseDupGo_nil (f : Nat) : collapseDupGo f [] = [] := by
  cases f <;> rfl

theorem expandRangesGo_nil (f : Nat) : expandRangesGo f [] = .ok [] := by
  cases f <;> rfl

theorem scanCitsGo_nil (f p : Nat) : scanCitsGo f p [] = [] := by
  cases f <;> rfl

theorem isPrefixOf_append_self (d t : List Char) :
    d.isPrefixOf (d ++ t) = true := by
  induction d with
  | nil => simp [List.isPrefixOf]
  | cons a as ih => simp [List.isPrefixOf, ih]

theorem isEmpty_false_of_ne_nil {d : List Char} (hd : d ≠ []) :
    d.isEmpty = false := by
  cases d with
  | nil => exact absurd rfl hd
  | cons a l => rfl

/-- `\[(\d+)\]\s+\[\1\]` matches a whole `"[d]" ++ ws ++ "[d]"` input. -/
theorem tryDup_dup_pattern (d ws : List Char) (hd : d ≠ [])
    (hdd : ∀ c ∈ d, c.isDigit = true) (hw : ws ≠ [])
    (hws : ∀ c ∈ ws, isPySpace c = true) :
    tryDup ('[' :: (d ++ ']' :: (ws ++ '[' :: (d ++ [']'])))) =
      some ('[' :: d ++ [']'], []) := by
  have h1 := takeWhile_all_append Char.isDigit d ']' (ws ++ '[' :: (d ++ [']'])) hdd (by decide)
  have h2 := dropWhile_all_append Char.isDigit d ']' (ws ++ '[' :: (d ++ [']'])) hdd (by decide)
  have h3 := takeWhile_all_append isPySpace ws '[' (d ++ [']']) hws (by decide)
  have h4 := dropWhile_all_append isPySpace ws '[' (d ++ [']']) hws (by decide)
  have h5 : d.isPrefixOf (d ++ [']']) = true := isPrefixOf_append_self d [']']
  have h6 : (d ++ [']']).drop d.length = [']'] := List.drop_left d [']']
  simp [tryDup, h1, h2, h3, h4, h5, h6,
    isEmpty_false_of_ne_nil hd, isEmpty_false_of_ne_nil hw]

theorem collapseDup_dup (d ws : List Char) (hd : d ≠ [])
    (hdd : ∀ c ∈ d, c.isDigit = true) (hw : ws ≠ [])
    (hws : ∀ c ∈ ws, isPySpace c = true) :
    collapseDup ('[' :: (d ++ ']' :: (ws ++ '[' :: (d ++ [']'])))) =
      '[' :: (d ++ [']']) := by
  unfold collapseDup
  rw [List.length_cons]
  simp only [collapseDupGo, tryDup_dup_pattern d ws hd hdd hw hws,
    collapseDupGo_nil, List.append_nil]
  simp

/-- `\[([\d\-]+)\]` on a dash-free `[digits]` token reproduces the token. -/
theorem tryRange_plain (d : List Char) (hd : d ≠ [])
    (hdd : ∀ c ∈ d, c.isDigit = true) :
    tryRange ('[' :: (d ++ [']'])) = some (.ok ('[' :: (d ++ [']'])), []) := by
  have hrc : ∀ c ∈ d, isRangeChar c = true := fun c hc => by
    simp [isRangeChar, hdd c hc]
  have h1 := takeWhile_all_append isRangeChar d ']' [] hrc (by decide)
  have h2 := dropWhile_all_append isRangeChar d ']' [] hrc (by decide)
  have hnd : ¬ '-' ∈ d := fun hmem => by
    have := hdd '-' hmem
    simp at this
  have hcontains : d.contains '-' = false := by simpa using hnd
  simp [tryRange, h1, h2, isEmpty_false_of_ne_nil hd,
    replace_range_citations, hcontains]
  exact fun hmem => absurd hmem hnd

theorem expandRanges_plain (d : List Char) (hd : d ≠ [])
    (hdd : ∀ c ∈ d, c.isDigit = true) :
    expandRangesL ('[' :: (d ++ [']'])) = .ok ('[' :: (d ++ [']'])) := by
  unfold expandRangesL
  rw [List.length_cons]
  simp only [expandRangesGo, tryRange_plain d hd hdd, expandRangesGo_nil]
  simp [Bind.bind, Except.bind, Pure.pure, Except.pure]

/-- `\[(\d+(?:,\s*\d+)*)\]` on a whole `[digits]` input. -/
theorem tryCit_single (d : List Char) (hd : d ≠ [])
    (hdd : ∀ c ∈ d, c.isDigit = true) :
    tryCit ('[' :: (d ++ [']'])) = some (d, d.length + 2, []) := by
  have h1 := takeWhile_all_append Char.isDigit d ']' [] hdd (by decide)
  have h2 := dropWhile_all_append Char.isDigit d ']' [] hdd (by decide)
  simp [tryCit, h1, h2, isEmpty_false_of_ne_nil hd, citUnitsGo]

theorem scanCits_single (d : List Char) (hd : d ≠ [])
    (hdd : ∀ c ∈ d, c.isDigit = true) :
    scanCits ('[' :: (d ++ [']'])) = [⟨0, d.length + 2, d⟩] := by
  unfold scanCits
  have hlen : ('[' :: (d ++ [']'])).length = (d.length + 1) + 1 := by simp
  rw [hlen]
  simp only [scanCitsGo, tryCit_single d hd hdd, scanCitsGo_nil]
  norm_num

theorem mergeAdjacent_single (d : List Char) (hd : d ≠ [])
    (hdd : ∀ c ∈ d, c.isDigit = true) :
    mergeAdjacentCitations ('[' :: (d ++ [']'])) = '[' :: (d ++ [']']) := by
  unfold mergeAdjacentCitations
  rw [scanCits_single d hd hdd]
  simp [groupAdjacent, groupAdjacentGo, applyMerges]

/-- C8.  In the annotated derivation, a pattern `"[n] [n]"` — the same
digit string `n` twice, separated by one or more whitespace characters of
any kind — collapses to a single `"[n]"`: the first `re.sub` collapses the
pair, range expansion leaves the dash-free token unchanged, and the
adjacency-merge step sees a single group and leaves it alone. -/
theorem C8_duplicate_group_collapse (d ws : List Char) (hd : d ≠ [])
    (hdd : ∀ c ∈ d, c.isDigit = true) (hw : ws ≠ [])
    (hws : ∀ c ∈ ws, isPySpace c = true) :
    processCitationTextL ('[' :: (d ++ ']' :: (ws ++ '[' :: (d ++ [']'])))) =
      .ok ('[' :: (d ++ [']'])) := by
  unfold processCitationTextL
  rw [collapseDup_dup d ws hd hdd hw hws]
  simp only [expandRanges_plain d hd hdd, Bind.bind, Except.bind]
  simp [Pure.pure, Except.pure, mergeAdjacent_single d hd hdd]
  exact pyStripL_bracketed '[' ']' d (by decide) (by decide)

/-- C8 witness: `"[7] [7]"` becomes `"[7]"`. -/
theorem C8_duplicate_group_collapse_witness :
    processCitationText "[7] [7]" = Except.ok "[7]" := by
  have h := C8_duplicate_group_collapse ['7'] [' ']
    (by decide) (by decide) (by decide) (by decide)
  have h2 : processCitationTextL ['[', '7', ']', ' ', '[', '7', ']'] =
      Except.ok ['[', '7', ']'] := h
  simp only [processCitationText, Except.map]
  rw [h2]

/-! ## Claim C2: range expansion -/

theorem splitOnChar_no_sep (sep : Char) (ys : List Char) (h : ¬ sep ∈ ys) :
    splitOnChar sep ys = [ys] := by
  induction ys with
  | nil => rfl
  | cons c cs ih =>
    have hc : ¬ c = sep := fun e => h (by simp [e])
    have ih' := ih (fun hm => h (by simp [hm]))
    simp [splitOnChar, hc, ih']

theorem splitOnChar_append (sep : Char) (xs ys : List Char) (h : ¬ sep ∈ xs) :
    splitOnChar sep (xs ++ sep :: ys) = xs :: splitOnChar sep ys := by
  induction xs with
  | nil => simp [splitOnChar]
  | cons c cs ih =>
    have hc : ¬ c = sep := fun e => h (by simp [e])
    have ih' := ih (fun hm => h (by simp [hm]))
    simp [splitOnChar, hc, ih']

theorem digitsToNat?_inv {d : List Char} {a : Nat}
    (h : digitsToNat? d = some a) : d ≠ [] ∧ ∀ c ∈ d, c.isDigit = true := by
  unfold digitsToNat? at h
  by_cases he : d.isEmpty
  · simp [he] at h
  · by_cases hall : d.all Char.isDigit
    · refine ⟨?_, ?_⟩
      · intro hnil
        rw [hnil] at he
        exact he rfl
      · exact fun c hc => List.all_eq_true.mp hall c hc
    · simp [he, hall] at h

/-- The numeric-range case of `replace_range_citations`. -/
theorem replace_range_citations_numeric (da db : List Char) (a b : Nat)
    (ha : digitsToNat? da = some a) (hb : digitsToNat? db = some b) :
    replace_range_citations (da ++ '-' :: db) =
      .ok ('[' :: (joinWith ", ".data
        ((pyRange a b).map (fun n => (toString n).data)) ++ [']'])) := by
  obtain ⟨-, hda⟩ := digitsToNat?_inv ha
  obtain ⟨-, hdb⟩ := digitsToNat?_inv hb
  have hnda : ¬ '-' ∈ da := fun hm => by have := hda '-' hm; simp at this
  have hndb : ¬ '-' ∈ db := fun hm => by have := hdb '-' hm; simp at this
  have hsplit : splitOnChar '-' (da ++ '-' :: db) = [da, db] := by
    rw [splitOnChar_append '-' da db hnda, splitOnChar_no_sep '-' db hndb]
  have hmem : '-' ∈ da ++ '-' :: db := by simp
  unfold replace_range_citations
  rw [if_pos (by simp), hsplit]
  simp [ha, hb]

/-- `\[([\d\-]+)\]` on a whole `"[da-db]"` input with numeric bounds. -/
theorem expandRangesL_numeric (da db : List Char) (a b : Nat)
    (ha : digitsToNat? da = some a) (hb : digitsToNat? db = some b) :
    expandRangesL ('[' :: (da ++ '-' :: (db ++ [']']))) =
      .ok ('[' :: (joinWith ", ".data
        ((pyRange a b).map (fun n => (toString n).data)) ++ [']'])) := by
  obtain ⟨hne, hda⟩ := digitsToNat?_inv ha
  obtain ⟨-, hdb⟩ := digitsToNat?_inv hb
  have hrc : ∀ c ∈ da ++ '-' :: db, isRangeChar c = true := by
    intro c hc
    rcases List.mem_append.mp hc with h | h
    · simp [isRangeChar, hda c h]
    · rcases List.mem_cons.mp h with h' | h'
      · simp [isRangeChar, h']
      · simp [isRangeChar, hdb c h']
  have hshape : da ++ '-' :: (db ++ [']']) = (da ++ '-' :: db) ++ ']' :: [] := by
    simp
  have h1 : (da ++ '-' :: (db ++ [']'])).takeWhile isRangeChar = da ++ '-' :: db := by
    rw [hshape]
    exact takeWhile_all_append isRangeChar (da ++ '-' :: db) ']' [] hrc (by decide)
  have h2 : (da ++ '-' :: (db ++ [']'])).dropWhile isRangeChar = [']'] := by
    rw [hshape]
    exact dropWhile_all_append isRangeChar (da ++ '-' :: db) ']' [] hrc (by decide)
  have hne2 : (da ++ '-' :: db).isEmpty = false :=
    isEmpty_false_of_ne_nil (by simp)
  unfold expandRangesL
  rw [List.length_cons]
  simp only [expandRangesGo, tryRange, h1, h2, hne2, Bool.false_eq_true,
    if_false, expandRangesGo_nil,
    replace_range_citations_numeric da db a b ha hb]
  simp [Bind.bind, Except.bind, Pure.pure, Except.pure]

/-- C2 counterexample.  The malformed range token `"[91-]"` (missing second
bound) is matched by `\[([\d\-]+)\]`, and the replacement callback then
raises `ValueError` from `int('')` — the token is not left untouched and an
error does propagate, contradicting the claim. -/
theorem C2_malformed_range_raises :
    expandRanges "[91-]" = .error "ValueError" ∧
    expandRanges "[91-]" ≠ .ok "[91-]" ∧
    format_text_with_citations
      (Node.elem "div" {} [Node.text "see ",
        Node.elem "sup" {} [Node.text "[91-]"]]) = .error "ValueError" := by
  refine ⟨rfl, ?_, rfl⟩
  intro hc
  rw [show expandRanges "[91-]" = .error "ValueError" from rfl] at hc
  exact Except.noConfusion hc

/-- C2 (amended).  Every `"[a-b]"` token with numeric bounds expands to the
inclusive comma-separated list of integers from `a` to `b` (`"[91-92]"` →
`"[91, 92]"`, `"[5-5]"` → `"[5]"`); `pyRange` is exactly the inclusive
interval; a token with non-numeric characters such as `"[a-b]"` is not
matched by the digit-dash pattern and is left untouched; but a matched
token with an empty bound, such as `"[91-]"`, raises `ValueError` instead
of being left untouched. -/
theorem C2_range_expansion :
    (∀ da db a b, digitsToNat? da = some a → digitsToNat? db = some b →
      expandRangesL ('[' :: (da ++ '-' :: (db ++ [']']))) =
        .ok ('[' :: (joinWith ", ".data
          ((pyRange a b).map (fun n => (toString n).data)) ++ [']']))) ∧
    (∀ a b n, n ∈ pyRange a b ↔ a ≤ n ∧ n ≤ b) ∧
    expandRanges "[91-92]" = .ok "[91, 92]" ∧
    expandRanges "[5-5]" = .ok "[5]" ∧
    expandRanges "[a-b]" = .ok "[a-b]" ∧
    expandRanges "[91-]" = .error "ValueError" := by
  refine ⟨fun da db a b ha hb => expandRangesL_numeric da db a b ha hb,
    fun a b n => ?_, rfl, rfl, rfl, rfl⟩
  rw [pyRange, List.mem_range'_1]
  omega

/-- C2 witness: the general expansion applied at `"[2-4]"`, and the interval
characterization applied at concrete bounds. -/
theorem C2_range_expansion_witness :
    expandRangesL ['[', '2', '-', '4', ']'] = .ok "[2, 3, 4]".data ∧
    (3 ∈ pyRange 2 4 ↔ 2 ≤ 3 ∧ 3 ≤ 4) := by
  constructor
  · have h := C2_range_expansion.1 ['2'] ['4'] 2 4 (by decide) (by decide)
    exact h
  · exact C2_range_expansion.2.1 2 4 3

/-! ## Claim C1: greedy clustering and merged replacement -/

theorem groupAdjacentGo_join (l : List Span) :
    ∀ (cur : List Span) (lst : Span),
      (groupAdjacentGo cur lst l).flatten = cur ++ l := by
  induction l with
  | nil => intro cur lst; simp [groupAdjacentGo]
  | cons s rest ih =>
    intro cur lst
    by_cases h : s.start - lst.stop ≤ 3
    · simp [groupAdjacentGo, h, ih (cur ++ [s]) s]
    · simp [groupAdjacentGo, h, ih [s] s]

theorem groupAdjacentGo_ne_nil (l : List Span) :
    ∀ (cur : List Span) (lst : Span), cur ≠ [] →
      ∀ g ∈ groupAdjacentGo cur lst l, g ≠ [] := by
  induction l with
  | nil =>
    intro cur lst hcur g hg
    simp [groupAdjacentGo] at hg
    rw [hg]; exact hcur
  | cons s rest ih =>
    intro cur lst hcur g hg
    by_cases h : s.start - lst.stop ≤ 3
    · exact ih (cur ++ [s]) s (by simp) g (by simpa [groupAdjacentGo, h] using hg)
    · simp only [groupAdjacentGo, h, if_false, List.mem_cons] at hg
      rcases hg with hg | hg
      · rw [hg]; exact hcur
      · exact ih [s] s (by simp) g hg

theorem groupAdjacentGo_head (l : List Span) :
    ∀ (cur : List Span) (lst : Span),
      ∃ t, (groupAdjacentGo cur lst l).head? = some (cur ++ t) := by
  induction l with
  | nil => intro cur lst; exact ⟨[], by simp [groupAdjacentGo]⟩
  | cons s rest ih =>
    intro cur lst
    by_cases h : s.start - lst.stop ≤ 3
    · obtain ⟨t, ht⟩ := ih (cur ++ [s]) s
      exact ⟨s :: t, by simpa [groupAdjacentGo, h] using ht⟩
    · exact ⟨[], by simp [groupAdjacentGo, h]⟩

theorem groupAdjacentGo_chain (l : List Span) :
    ∀ (cur : List Span) (lst : Span), cur.getLast? = some lst →
      List.Chain' gapClose cur →
      ∀ g ∈ groupAdjacentGo cur lst l, List.Chain' gapClose g := by
  induction l with
  | nil =>
    intro cur lst _ hchain g hg
    simp [groupAdjacentGo] at hg
    rw [hg]; exact hchain
  | cons s rest ih =>
    intro cur lst hlast hchain g hg
    by_cases h : s.start - lst.stop ≤ 3
    · refine ih (cur ++ [s]) s (by simp) ?_ g
        (by simpa [groupAdjacentGo, h] using hg)
      refine List.chain'_append.mpr ⟨hchain, List.chain'_singleton s, ?_⟩
      intro x hx y hy
      rw [hlast] at hx
      simp at hx hy
      subst hx
      subst hy
      exact h
    · simp only [groupAdjacentGo, h, if_false, List.mem_cons] at hg
      rcases hg with hg | hg
      · rw [hg]; exact hchain
      · exact ih [s] s (by simp) (List.chain'_singleton s) g hg

theorem groupAdjacentGo_sep (l : List Span) :
    ∀ (cur : List Span) (lst : Span), cur.getLast? = some lst →
      List.Chain' clusterSep (groupAdjacentGo cur lst l) := by
  induction l with
  | nil => intro cur lst _; simp [groupAdjacentGo]
  | cons s rest ih =>
    intro cur lst hlast
    by_cases h : s.start - lst.stop ≤ 3
    · simpa [groupAdjacentGo, h] using ih (cur ++ [s]) s (by simp)
    · simp only [groupAdjacentGo, h, if_false]
      refine List.chain'_cons'.mpr ⟨?_, ih [s] s (by simp)⟩
      intro y hy
      obtain ⟨t, ht⟩ := groupAdjacentGo_head rest [s] s
      rw [ht] at hy
      simp at hy
      subst hy
      intro x hx z hz
      rw [hlast] at hx
      simp at hx hz
      subst hx
      subst hz
      exact h

theorem insertByKey_perm {α : Type} (key : α → Nat) (x : α) (l : List α) :
    (insertByKey key x l).Perm (x :: l) := by
  induction l with
  | nil => simp [insertByKey]
  | cons y ys ih =>
    by_cases h : key x < key y
    · simp [insertByKey, h]
    · simp only [insertByKey, h, if_false]
      exact (ih.cons y).trans (List.Perm.swap x y ys)

theorem insertByKey_sorted {α : Type} (key : α → Nat) (x : α) (l : List α)
    (h : List.Sorted (fun u v => key u ≤ key v) l) :
    List.Sorted (fun u v => key u ≤ key v) (insertByKey key x l) := by
  induction l with
  | nil => simp [insertByKey]
  | cons y ys ih =>
    rw [List.sorted_cons] at h
    by_cases hk : key x < key y
    · rw [insertByKey, if_pos hk, List.sorted_cons]
      refine ⟨?_, List.sorted_cons.mpr h⟩
      intro b hb
      rcases List.mem_cons.mp hb with hb | hb
      · rw [hb]; omega
      · have := h.1 b hb; omega
    · rw [insertByKey, if_neg hk, List.sorted_cons]
      refine ⟨?_, ih h.2⟩
      intro b hb
      have := (insertByKey_perm key x ys).mem_iff.mp hb
      rcases List.mem_cons.mp this with hb' | hb'
      · rw [hb']; omega
      · exact h.1 b hb'

theorem pySortGo_sorted {α : Type} (key : α → Nat) (l : List α) :
    ∀ acc, List.Sorted (fun u v => key u ≤ key v) acc →
      List.Sorted (fun u v => key u ≤ key v) (pySortGo key acc l) := by
  induction l with
  | nil => intro acc hacc; exact hacc
  | cons x xs ih =>
    intro acc hacc
    exact ih (insertByKey key x acc) (insertByKey_sorted key x acc hacc)

theorem pySortGo_perm {α : Type} (key : α → Nat) (l : List α) :
    ∀ acc, (pySortGo key acc l).Perm (acc ++ l) := by
  induction l with
  | nil => intro acc; simp [pySortGo]
  | cons x xs ih =>
    intro acc
    refine (ih (insertByKey key x acc)).trans ?_
    refine (List.Perm.append_right xs ((insertByKey_perm key x acc))).trans ?_
    simpa using List.perm_middle.symm

theorem pySortByKey_sorted {α : Type} (key : α → Nat) (l : List α) :
    List.Sorted (fun u v => key u ≤ key v) (pySortByKey key l) :=
  pySortGo_sorted key l [] (by simp)

theorem pySortByKey_perm {α : Type} (key : α → Nat) (l : List α) :
    (pySortByKey key l).Perm l := by
  simpa using pySortGo_perm key l []

theorem sortedUniqueNums_spec (xs : List (List Char)) :
    List.Sorted (fun u v => digitVal u ≤ digitVal v) (sortedUniqueNums xs) ∧
    (sortedUniqueNums xs).Nodup ∧ ∀ x, x ∈ sortedUniqueNums xs ↔ x ∈ xs := by
  refine ⟨pySortByKey_sorted digitVal xs.dedup, ?_, ?_⟩
  · exact (pySortByKey_perm digitVal xs.dedup).nodup_iff.mpr (List.nodup_dedup xs)
  · intro x
    rw [sortedUniqueNums,
      (pySortByKey_perm digitVal xs.dedup).mem_iff, List.mem_dedup]

/-- C1.  The annotated derivation's adjacency merge: (1) the greedy grouping
partitions the scanned spans in order (their concatenation is the original
span list) into non-empty clusters whose consecutive members are separated
by at most 3 characters, (2) consecutive clusters are separated by more than
3 characters, (3) a merged cluster's contents are deduplicated and sorted
ascending by integer value (and contain exactly the numbers of the cluster),
and (4) concretely: `"[262] [411]"` (gap 1) merges to `"[262, 411]"`, a gap
of more than 3 characters keeps groups separate, and the union
`{411, 7, 92}` renders numerically as `"[7, 92, 411]"`, never lexically. -/
theorem C1_adjacent_citation_merge :
    (∀ spans : List Span, (groupAdjacent spans).flatten = spans) ∧
    (∀ spans : List Span, ∀ g ∈ groupAdjacent spans,
      g ≠ [] ∧ List.Chain' gapClose g) ∧
    (∀ spans : List Span, List.Chain' clusterSep (groupAdjacent spans)) ∧
    (∀ cl : List Span,
      List.Sorted (fun u v => digitVal u ≤ digitVal v)
        (sortedUniqueNums (clusterNums cl)) ∧
      (sortedUniqueNums (clusterNums cl)).Nodup ∧
      (∀ x, x ∈ sortedUniqueNums (clusterNums cl) ↔ x ∈ clusterNums cl)) ∧
    processCitationText "[262] [411]" = .ok "[262, 411]" ∧
    processCitationText "[262]    [411]" = .ok "[262]    [411]" ∧
    (processCitationText "[411] [7] [92]" = .ok "[7, 92, 411]" ∧
      processCitationText "[411] [7] [92]" ≠ .ok "[411, 7, 92]") := by
  refine ⟨?_, ?_, ?_, fun cl => sortedUniqueNums_spec (clusterNums cl),
    rfl, rfl, rfl, ?_⟩
  · intro spans
    cases spans with
    | nil => rfl
    | cons s rest => simp [groupAdjacent, groupAdjacentGo_join]
  · intro spans g hg
    cases spans with
    | nil => simp [groupAdjacent] at hg
    | cons s rest =>
      simp only [groupAdjacent] at hg
      exact ⟨groupAdjacentGo_ne_nil rest [s] s (by simp) g hg,
        groupAdjacentGo_chain rest [s] s (by simp) (List.chain'_singleton s) g hg⟩
  · intro spans
    cases spans with
    | nil => simp [groupAdjacent]
    | cons s rest =>
      simp only [groupAdjacent]
      exact groupAdjacentGo_sep rest [s] s (by simp)
  · intro hc
    rw [show processCitationText "[411] [7] [92]" = .ok "[7, 92, 411]" from rfl] at hc
    have := congrArg (fun e : Except String String =>
      match e with | .ok v => v | .error _ => "") hc
    simp at this


/-- C1 witness: the clustering facts applied to the concrete span list of
`"[262] [411]"` (spans `0–5` and `6–11`, gap 1). -/
theorem C1_adjacent_citation_merge_witness :
    ([⟨0, 5, ['2', '6', '2']⟩, ⟨6, 11, ['4', '1', '1']⟩] : List Span) ≠ [] ∧
    List.Chain' gapClose
      [⟨0, 5, ['2', '6', '2']⟩, ⟨6, 11, ['4', '1', '1']⟩] :=
  C1_adjacent_citation_merge.2.1
    [⟨0, 5, ['2', '6', '2']⟩, ⟨6, 11, ['4', '1', '1']⟩]
    [⟨0, 5, ['2', '6', '2']⟩, ⟨6, 11, ['4', '1', '1']⟩]
    (by decide)

/-! ## Claim C4: `max_cols` and row padding -/

theorem padTo_length (l : List String) (n : Nat) :
    (padTo l n).length = max l.length n := by
  simp [padTo]
  omega

theorem le_foldl_max (l : List Node) :
    ∀ a : Nat, a ≤ l.foldl (fun m r => max m (tdCellsOf r).length) a := by
  induction l with
  | nil => intro a; simp
  | cons x xs ih =>
    intro a
    exact le_trans (Nat.le_max_left a (tdCellsOf x).length)
      (ih (max a (tdCellsOf x).length))

theorem mem_foldl_max (l : List Node) :
    ∀ (a : Nat) (x : Node), x ∈ l →
      (tdCellsOf x).length ≤ l.foldl (fun m r => max m (tdCellsOf r).length) a := by
  induction l with
  | nil => intro a x hx; simp at hx
  | cons y ys ih =>
    intro a x hx
    rcases List.mem_cons.mp hx with h | h
    · rw [h]
      calc (tdCellsOf y).length ≤ max a (tdCellsOf y).length := Nat.le_max_right _ _
        _ ≤ _ := le_foldl_max ys (max a (tdCellsOf y).length)
    · exact ih (max a (tdCellsOf y).length) x h

theorem headers_le_max_cols (t : Node) :
    (tableHeaders t).length ≤ table_max_cols t :=
  le_foldl_max (t.findAll (tagIs "tr")) (tableHeaders t).length

theorem row_cells_le_max_cols (t : Node) (r : Node)
    (hr : r ∈ t.findAll (tagIs "tr")) :
    (tdCellsOf r).length ≤ table_max_cols t :=
  mem_foldl_max (t.findAll (tagIs "tr")) (tableHeaders t).length r hr

theorem mem_extract_table_rows {t : Node} {r : List String}
    (hr : r ∈ (extract_table t).rows) :
    ∃ row ∈ t.findAll (tagIs "tr"),
      ¬ (tdCellsOf row).isEmpty = true ∧
      r = padTo (expandRow (tdCellsOf row)) (table_max_cols t) := by
  simp only [extract_table] at hr
  obtain ⟨row, hrow, hproc⟩ := List.mem_filterMap.mp hr
  refine ⟨row, List.drop_subset _ _ hrow, ?_, ?_⟩
  · intro he
    simp [processRow, he] at hproc
  · by_cases he : (tdCellsOf row).isEmpty
    · simp [processRow, he] at hproc
    · simp [processRow, he] at hproc
      exact hproc.symm

theorem pyInsert_length (l : List String) (i : Nat) (x : String) :
    (pyInsert l i x).length = l.length + 1 := by
  simp [pyInsert]
  omega

theorem repInsert_length (i : Nat) :
    ∀ (m : Nat) (rd : List String), (repInsert rd i m).length = rd.length + m := by
  intro m
  induction m with
  | zero => intro rd; rfl
  | succ m ih =>
    intro rd
    rw [repInsert, ih (pyInsert rd i ""), pyInsert_length]
    omega

/-- One colspan step is exactly `spanExtraOf c` insertions at `i + 1`. -/
theorem applySpan_eq_repInsert (rd : List String) (i : Nat) (c : Node) :
    applySpan rd i c = repInsert rd (i + 1) (spanExtraOf c) := by
  unfold applySpan spanExtraOf
  rcases c.attrsOf.colspan with _ | sp
  · rfl
  · dsimp only
    by_cases hse : sp = ""
    · simp [hse, repInsert]
    · rw [if_neg hse, if_neg hse]
      rcases pyInt? sp with _ | k
      · rfl
      · dsimp only
        by_cases h1 : 1 < k
        · rw [if_pos h1, if_pos h1]
        · rw [if_neg h1, if_neg h1, repInsert]

theorem expandRowGo_noextra (cells : List Node) :
    ∀ (rd : List String) (i : Nat), (∀ c ∈ cells, spanExtraOf c = 0) →
      expandRowGo rd i cells = rd := by
  induction cells with
  | nil => intro rd i _; rfl
  | cons c cs ih =>
    intro rd i hall
    have hc : spanExtraOf c = 0 := hall c (by simp)
    rw [expandRowGo, applySpan_eq_repInsert, hc, repInsert]
    exact ih rd (i + 1) (fun z hz => hall z (by simp [hz]))

theorem expandRow_noextra (cells : List Node)
    (h : ∀ c ∈ cells, spanExtraOf c = 0) :
    expandRow cells = cells.map Node.getTextStrip :=
  expandRowGo_noextra cells (cells.map Node.getTextStrip) 0 h

/-- C4 counterexample.  A table whose second row holds one `colspan=2` cell:
`max_cols` is computed from the raw `td` count (1), so it is 1, yet the
span-expanded row `["b", ""]` has width 2 — a span-expanded row *is* wider
than `max_cols`, contradicting the claim that `max_cols` bounds the widest
row measured after span expansion. -/
theorem C4_expanded_row_wider_than_max_cols :
    table_max_cols (Node.elem "table" {}
      [Node.elem "tr" {} [Node.elem "td" {} [Node.text "a"]],
       Node.elem "tr" {} [Node.elem "td" {colspan := some "2"} [Node.text "b"]]]) = 1 ∧
    (extract_table (Node.elem "table" {}
      [Node.elem "tr" {} [Node.elem "td" {} [Node.text "a"]],
       Node.elem "tr" {} [Node.elem "td" {colspan := some "2"} [Node.text "b"]]])).rows
      = [["b", ""]] ∧
    ¬ (∀ r ∈ (extract_table (Node.elem "table" {}
      [Node.elem "tr" {} [Node.elem "td" {} [Node.text "a"]],
       Node.elem "tr" {} [Node.elem "td" {colspan := some "2"} [Node.text "b"]]])).rows,
        r.length ≤ table_max_cols (Node.elem "table" {}
      [Node.elem "tr" {} [Node.elem "td" {} [Node.text "a"]],
       Node.elem "tr" {} [Node.elem "td" {colspan := some "2"} [Node.text "b"]]])) := by
  refine ⟨rfl, rfl, ?_⟩
  intro hall
  have h := hall ["b", ""] (by
    rw [show (extract_table (Node.elem "table" {}
      [Node.elem "tr" {} [Node.elem "td" {} [Node.text "a"]],
       Node.elem "tr" {} [Node.elem "td" {colspan := some "2"} [Node.text "b"]]])).rows
      = [["b", ""]] from rfl]
    simp)
  rw [show table_max_cols (Node.elem "table" {}
      [Node.elem "tr" {} [Node.elem "td" {} [Node.text "a"]],
       Node.elem "tr" {} [Node.elem "td" {colspan := some "2"} [Node.text "b"]]]) = 1
    from rfl] at h
  simp at h

/-- C4 (amended).  `max_cols` is the maximum of the header length and the
widest row's raw `td`-cell count measured *before* column-span expansion;
every returned row is padded to at least `max_cols`, and a row none of whose
cells expands has exactly `max_cols` cells — but a span-expanded row may
exceed `max_cols` (see the counterexample). -/
theorem C4_max_cols_and_padding :
    (∀ t : Node, (tableHeaders t).length ≤ table_max_cols t) ∧
    (∀ t : Node, ∀ row ∈ t.findAll (tagIs "tr"),
      (tdCellsOf row).length ≤ table_max_cols t) ∧
    (∀ t : Node, ∀ r ∈ (extract_table t).rows, table_max_cols t ≤ r.length) ∧
    (∀ t : Node, ∀ r ∈ (extract_table t).rows,
      (∀ row ∈ t.findAll (tagIs "tr"), ∀ c ∈ tdCellsOf row, spanExtraOf c = 0) →
      r.length = table_max_cols t) := by
  refine ⟨headers_le_max_cols, fun t => row_cells_le_max_cols t, ?_, ?_⟩
  · intro t r hr
    obtain ⟨row, _, _, hpad⟩ := mem_extract_table_rows hr
    rw [hpad, padTo_length]
    omega
  · intro t r hr hall
    obtain ⟨row, hrow, _, hpad⟩ := mem_extract_table_rows hr
    rw [hpad, expandRow_noextra (tdCellsOf row) (hall row hrow), padTo_length]
    have := row_cells_le_max_cols t row hrow
    simp
    omega

/-- C4 witness: the padding bound applied to a concrete two-row table. -/
theorem C4_max_cols_and_padding_witness :
    table_max_cols (Node.elem "table" {}
      [Node.elem "tr" {} [Node.elem "td" {} [Node.text "h"]],
       Node.elem "tr" {} [Node.elem "td" {} [Node.text "c"]]]) ≤
      (["c"] : List String).length :=
  C4_max_cols_and_padding.2.2.1 (Node.elem "table" {}
      [Node.elem "tr" {} [Node.elem "td" {} [Node.text "h"]],
       Node.elem "tr" {} [Node.elem "td" {} [Node.text "c"]]]) ["c"] (by decide)

/-! ## Claim C5: colspan filler insertion -/

theorem expandRowGo_length (cells : List Node) :
    ∀ (rd : List String) (i : Nat),
      (expandRowGo rd i cells).length = rd.length + (cells.map spanExtraOf).sum := by
  induction cells with
  | nil => intro rd i; simp [expandRowGo]
  | cons c cs ih =>
    intro rd i
    rw [expandRowGo, ih, applySpan_eq_repInsert, repInsert_length]
    simp
    omega

theorem repInsert_at (xs : List String) :
    ∀ (m : Nat) (ys : List String),
      repInsert (xs ++ ys) xs.length m = xs ++ (List.replicate m "" ++ ys) := by
  intro m
  induction m with
  | zero => intro ys; simp [repInsert]
  | succ m ih =>
    intro ys
    rw [repInsert]
    have hins : pyInsert (xs ++ ys) xs.length "" = xs ++ "" :: ys := by
      simp [pyInsert, List.take_left, List.drop_left]
    rw [hins, ih ("" :: ys), List.replicate_succ']
    simp

theorem expandRowGo_append_noextra (pre : List Node) :
    ∀ (rest : List Node) (rd : List String) (i : Nat),
      (∀ c ∈ pre, spanExtraOf c = 0) →
      expandRowGo rd i (pre ++ rest) = expandRowGo rd (i + pre.length) rest := by
  induction pre with
  | nil => intro rest rd i _; simp
  | cons c cs ih =>
    intro rest rd i hall
    rw [List.cons_append, expandRowGo, applySpan_eq_repInsert,
      hall c (by simp), repInsert,
      ih rest rd (i + 1) (fun z hz => hall z (by simp [hz]))]
    congr 1
    simp
    omega

theorem expandRow_single_span (pre post : List Node) (cell : Node)
    (sp : String) (k : Int)
    (hpre : ∀ c ∈ pre, spanExtraOf c = 0) (hpost : ∀ c ∈ post, spanExtraOf c = 0)
    (hcs : cell.attrsOf.colspan = some sp) (hk : pyInt? sp = some k) (h1 : 1 < k) :
    expandRow (pre ++ cell :: post) =
      pre.map Node.getTextStrip ++ cell.getTextStrip ::
        (List.replicate (k - 1).toNat "" ++ post.map Node.getTextStrip) := by
  have hse : sp ≠ "" := by
    intro he
    rw [he] at hk
    exact Option.noConfusion hk
  have hextra : spanExtraOf cell = (k - 1).toNat := by
    unfold spanExtraOf
    rw [hcs]
    dsimp only
    rw [if_neg hse, hk]
    dsimp only
    rw [if_pos h1]
  have hrd : (pre ++ cell :: post).map Node.getTextStrip =
      (pre.map Node.getTextStrip ++ [cell.getTextStrip]) ++ post.map Node.getTextStrip := by
    simp
  rw [expandRow, expandRowGo_append_noextra pre (cell :: post) _ 0 hpre,
    expandRowGo, applySpan_eq_repInsert, hextra,
    expandRowGo_noextra post _ _ hpost, hrd,
    show 0 + pre.length + 1 =
      (pre.map Node.getTextStrip ++ [cell.getTextStrip]).length from by simp,
    repInsert_at]
  simp

/-- C5 counterexample.  In a row with two `colspan=2` cells, the loop
inserts at position `i + 1` of the already-mutated row using the cell's
index `i` in the *original* cell list, so the second cell's filler lands
before that cell: the extracted row is `["a", "", "", "b"]`, not the
`["a", "", "b", ""]` the claim (fillers immediately after each cell)
requires. -/
theorem C5_multi_span_filler_misplaced :
    (extract_table (Node.elem "table" {}
      [Node.elem "tr" {} [Node.elem "td" {} [Node.text "h1"],
        Node.elem "td" {} [Node.text "h2"], Node.elem "td" {} [Node.text "h3"],
        Node.elem "td" {} [Node.text "h4"]],
       Node.elem "tr" {} [Node.elem "td" {colspan := some "2"} [Node.text "a"],
        Node.elem "td" {colspan := some "2"} [Node.text "b"]]])).rows
      = [["a", "", "", "b"]] ∧
    (extract_table (Node.elem "table" {}
      [Node.elem "tr" {} [Node.elem "td" {} [Node.text "h1"],
        Node.elem "td" {} [Node.text "h2"], Node.elem "td" {} [Node.text "h3"],
        Node.elem "td" {} [Node.text "h4"]],
       Node.elem "tr" {} [Node.elem "td" {colspan := some "2"} [Node.text "a"],
        Node.elem "td" {colspan := some "2"} [Node.text "b"]]])).rows
      ≠ [["a", "", "b", ""]] := by
  refine ⟨rfl, ?_⟩
  intro hc
  rw [show (extract_table (Node.elem "table" {}
      [Node.elem "tr" {} [Node.elem "td" {} [Node.text "h1"],
        Node.elem "td" {} [Node.text "h2"], Node.elem "td" {} [Node.text "h3"],
        Node.elem "td" {} [Node.text "h4"]],
       Node.elem "tr" {} [Node.elem "td" {colspan := some "2"} [Node.text "a"],
        Node.elem "td" {colspan := some "2"} [Node.text "b"]]])).rows
      = [["a", "", "", "b"]] from rfl] at hc
  simp at hc

/-- C5 (amended).  For every data cell with a parseable span `k > 1` the
loop inserts exactly `k - 1` empty filler cells (so the expanded row's
length is the cell count plus the sum of all `k - 1` contributions), and
when at most one cell of the row expands, its fillers land immediately
after that cell; with several expanding cells in one row, a later cell's
fillers land at offset `i + 1` of the already-shifted row — before the
cell, not immediately after it (see the counterexample); a cell with an
unparseable span attribute is left unexpanded and the rest of the row is
still processed. -/
theorem C5_colspan_expansion :
    (∀ cells : List Node,
      (expandRow cells).length = cells.length + (cells.map spanExtraOf).sum) ∧
    (∀ (pre post : List Node) (cell : Node) (sp : String) (k : Int),
      (∀ c ∈ pre, spanExtraOf c = 0) → (∀ c ∈ post, spanExtraOf c = 0) →
      cell.attrsOf.colspan = some sp → pyInt? sp = some k → 1 < k →
      expandRow (pre ++ cell :: post) =
        pre.map Node.getTextStrip ++ cell.getTextStrip ::
          (List.replicate (k - 1).toNat "" ++ post.map Node.getTextStrip)) ∧
    (∀ cells : List Node,
      (∀ c ∈ cells, c.attrsOf.colspan = none ∨
        ∃ sp, c.attrsOf.colspan = some sp ∧ pyInt? sp = none) →
      expandRow cells = cells.map Node.getTextStrip) := by
  refine ⟨?_, expandRow_single_span, ?_⟩
  · intro cells
    rw [expandRow, expandRowGo_length]
    simp
  · intro cells hall
    refine expandRow_noextra cells (fun c hc => ?_)
    rcases hall c hc with h | ⟨sp, hsp, hnone⟩
    · unfold spanExtraOf
      rw [h]
    · unfold spanExtraOf
      rw [hsp]
      dsimp only
      by_cases hse : sp = ""
      · rw [if_pos hse]
      · rw [if_neg hse, hnone]

/-- C5 witness: a single `colspan=3` cell followed by a plain cell gets
exactly two fillers immediately after it. -/
theorem C5_colspan_expansion_witness :
    expandRow ([] ++ (Node.elem "td" {colspan := some "3"} [Node.text "a"]) ::
        [Node.elem "td" {} [Node.text "x"]]) =
      [].map Node.getTextStrip ++
        (Node.elem "td" {colspan := some "3"} [Node.text "a"]).getTextStrip ::
        (List.replicate ((3 : Int) - 1).toNat "" ++
          [Node.elem "td" {} [Node.text "x"]].map Node.getTextStrip) :=
  C5_colspan_expansion.2.1 [] [Node.elem "td" {} [Node.text "x"]]
    (Node.elem "td" {colspan := some "3"} [Node.text "a"]) "3" 3
    (by simp) (by intro c hc; simp at hc; rw [hc]; rfl)
    rfl (by rfl) (by omega)

/-! ## Claim C3: clean/annotated structural parity of `extract_content` -/

theorem dualOf_types {n : Node} {ty : String} {e1 e2 : Entry}
    (h : dualOf n ty = .ok (e1, e2)) : e1.type = ty ∧ e2.type = ty := by
  unfold dualOf at h
  cases hf : format_text_with_citations n with
  | error e =>
    rw [hf] at h
    simp [Bind.bind, Except.bind] at h
  | ok a =>
    rw [hf] at h
    simp [Bind.bind, Except.bind, Pure.pure, Except.pure] at h
    obtain ⟨h1, h2⟩ := h
    exact ⟨by rw [← h1], by rw [← h2]⟩

theorem mapME_mem {α β : Type} (f : α → Except String β) :
    ∀ (l : List α) (ys : List β), mapME f l = .ok ys →
      ∀ y ∈ ys, ∃ x ∈ l, f x = .ok y := by
  intro l
  induction l with
  | nil =>
    intro ys h y hy
    simp [mapME] at h
    subst h
    simp at hy
  | cons x xs ih =>
    intro ys h y hy
    unfold mapME at h
    cases hf : f x with
    | error e => rw [hf] at h; simp [Bind.bind, Except.bind] at h
    | ok b =>
      rw [hf] at h
      cases hrest : mapME f xs with
      | error e =>
        rw [hrest] at h
        simp [Bind.bind, Except.bind] at h
      | ok bs =>
        rw [hrest] at h
        simp [Bind.bind, Except.bind, Pure.pure, Except.pure] at h
        rw [← h] at hy
        rcases List.mem_cons.mp hy with hy | hy
        · exact ⟨x, by simp, by rw [hy]; exact hf⟩
        · obtain ⟨x', hx', hfx'⟩ := ih bs hrest y hy
          exact ⟨x', by simp [hx'], hfx'⟩

theorem pairs_types_eq {pairs : List (Entry × Entry)} {ty : String}
    (h : ∀ p ∈ pairs, p.1.type = ty ∧ p.2.type = ty) :
    (pairs.map Prod.fst).map Entry.type = (pairs.map Prod.snd).map Entry.type := by
  rw [List.map_map, List.map_map]
  exact List.map_congr_left (fun p hp => by
    have := h p hp
    simp [this.1, this.2])

theorem processChild_types {el : Node} {c a : List Entry}
    (h : processChild el = .ok (c, a)) :
    c.map Entry.type = a.map Entry.type := by
  unfold processChild at h
  by_cases h1 : el.classesOf.contains "paraTitle_WslP_"
  · rw [if_pos h1] at h
    simp at h
    rw [← h.1, ← h.2]
  · rw [if_neg h1] at h
    by_cases h2 : el.classesOf.contains "content_pzMvr"
    · rw [if_pos h2] at h
      cases hd : dualOf el "paragraph" with
      | error e => rw [hd] at h; simp [Bind.bind, Except.bind] at h
      | ok pr =>
        rw [hd] at h
        simp [Bind.bind, Except.bind, Pure.pure, Except.pure] at h
        obtain ⟨hty1, hty2⟩ := @dualOf_types el "paragraph" pr.1 pr.2 (by rw [hd])
        rw [← h.1, ← h.2]
        simp [hty1, hty2]
    · rw [if_neg h2] at h
      by_cases h3 : el.classesOf.contains "ordered_PAfTw"
      · rw [if_pos h3] at h
        cases hm : mapME (fun li => dualOf li "ol") (el.findAll (tagIs "li")) with
        | error e => rw [hm] at h; simp [Bind.bind, Except.bind] at h
        | ok pairs =>
          rw [hm] at h
          simp [Bind.bind, Except.bind, Pure.pure, Except.pure] at h
          rw [← h.1, ← h.2]
          refine @pairs_types_eq _ "ol" (fun p hp => ?_)
          obtain ⟨li, _, hli⟩ := mapME_mem _ _ pairs hm p hp
          exact dualOf_types (by rw [hli])
      · rw [if_neg h3] at h
        by_cases h4 : el.classesOf.contains "unordered_ev4ae"
        · rw [if_pos h4] at h
          cases hm : mapME (fun li => dualOf li "ul") (el.findAll (tagIs "li")) with
          | error e => rw [hm] at h; simp [Bind.bind, Except.bind] at h
          | ok pairs =>
            rw [hm] at h
            simp [Bind.bind, Except.bind, Pure.pure, Except.pure] at h
            rw [← h.1, ← h.2]
            refine @pairs_types_eq _ "ul" (fun p hp => ?_)
            obtain ⟨li, _, hli⟩ := mapME_mem _ _ pairs hm p hp
            exact dualOf_types (by rw [hli])
        · rw [if_neg h4] at h
          by_cases h5 : moduleTypeHasTable el
          · rw [if_pos h5] at h
            dsimp only at h
            cases hm : mapME (fun r =>
                mapME (fun cell => format_text_with_citations (Node.text cell)) r)
                (extract_table el).rows with
            | error e => rw [hm] at h; simp [Bind.bind, Except.bind] at h
            | ok annRows =>
              rw [hm] at h
              simp [Bind.bind, Except.bind, Pure.pure, Except.pure] at h
              rw [← h.1, ← h.2]
              rfl
          · rw [if_neg h5] at h
            simp at h
            rw [h.1, h.2]

theorem contentFold_types :
    ∀ (l : List Node) (acc res : List Entry × List Entry),
      contentFold l acc = .ok res →
      acc.1.map Entry.type = acc.2.map Entry.type →
      res.1.map Entry.type = res.2.map Entry.type := by
  intro l
  induction l with
  | nil =>
    intro acc res h hacc
    simp [contentFold] at h
    rw [← h]
    exact hacc
  | cons ch rest ih =>
    intro acc res h hacc
    unfold contentFold at h
    cases hpc : processChild ch with
    | error e => rw [hpc] at h; simp [Bind.bind, Except.bind] at h
    | ok pr =>
      rw [hpc] at h
      simp only [Bind.bind, Except.bind] at h
      refine ih _ res h ?_
      simp only [List.map_append]
      rw [hacc, processChild_types (c := pr.1) (a := pr.2) (by rw [hpc])]

/-- C3.  For every input document, the clean and annotated content
sequences produced by `extract_content` have identical block-type sequences
(the same `type` tags in the same order) and hence identical length; this
covers all branches — headings, paragraphs, ordered and unordered list
items, tables, and unknown children (skipped in both variants). -/
theorem C3_content_parity (soup : Node) (c a : List Entry)
    (h : extract_content soup = .ok (c, a)) :
    c.map Entry.type = a.map Entry.type ∧ c.length = a.length := by
  have hmap : c.map Entry.type = a.map Entry.type := by
    unfold extract_content at h
    cases hf : soup.find (fun n => tagIs "div" n && hasClassStr "J-lemma-content" n) with
    | none =>
      rw [hf] at h
      simp at h
      rw [h.1, h.2]
    | some d =>
      rw [hf] at h
      exact contentFold_types _ ([], []) (c, a) h rfl
  refine ⟨hmap, ?_⟩
  have := congrArg List.length hmap
  simpa using this

/-- C3 witness: a document with one heading, one cited paragraph, one
unclassified child and one ordered item has mirrored type sequences. -/
theorem C3_content_parity_witness :
    ([⟨"h2", .txt "T"⟩, ⟨"paragraph", .txt "Hi"⟩, ⟨"ol", .txt "1.x"⟩] :
        List Entry).map Entry.type =
      ([⟨"h2", .txt "T"⟩, ⟨"paragraph", .txt "Hi[1]"⟩, ⟨"ol", .txt "1.x"⟩] :
        List Entry).map Entry.type ∧
    ([⟨"h2", .txt "T"⟩, ⟨"paragraph", .txt "Hi"⟩, ⟨"ol", .txt "1.x"⟩] :
        List Entry).length =
      ([⟨"h2", .txt "T"⟩, ⟨"paragraph", .txt "Hi[1]"⟩, ⟨"ol", .txt "1.x"⟩] :
        List Entry).length :=
  C3_content_parity
    (.elem "html" {} [.elem "div" {classes := ["J-lemma-content"]} [
      .elem "div" {classes := ["paraTitle_WslP_", "level-2"]}
        [.elem "h3" {} [.text "T"]],
      .elem "div" {classes := ["content_pzMvr"]}
        [.text "Hi", .elem "sup" {} [.text "[1]"]],
      .elem "div" {classes := ["other"]} [.text "skip"],
      .elem "ol" {classes := ["ordered_PAfTw"]} [.elem "li" {} [.text "1.x"]]]])
    [⟨"h2", .txt "T"⟩, ⟨"paragraph", .txt "Hi"⟩, ⟨"ol", .txt "1.x"⟩]
    [⟨"h2", .txt "T"⟩, ⟨"paragraph", .txt "Hi[1]"⟩, ⟨"ol", .txt "1.x"⟩]
    (by decide)

/-! ## Claim C7: ordered-item rendering and the silent drop -/

/-- C7.  The Markdown renderer's ordered-item branch re-parses the item's
leading numeral with `^(\\d+)\\.(.*)`: a matching item is re-emitted as
`"{number}. {rest}"`, and an item with no leading numeral contributes
nothing at all to the Markdown (it is silently dropped) in both the clean
and annotated renderings, while the document model still holds the entry. -/
theorem C7_ol_item_drop :
    (∀ s : String, parseOlNum s = none → renderOlItem s = "") ∧
    (∀ ds rest : List Char, ds ≠ [] → (∀ c ∈ ds, c.isDigit = true) →
      renderOlItem ⟨ds ++ '.' :: rest⟩ =
        (⟨ds⟩ : String) ++ ". " ++
          (⟨rest.takeWhile (fun c => c ≠ '\n')⟩ : String) ++ "\n\n") ∧
    generate_markdown_content
      ⟨"T", "", ⟨"", ""⟩, [], [], [],
        [⟨"ol", .txt "no numeral"⟩], [⟨"ol", .txt "no numeral"⟩], []⟩ =
      .ok ("# T\n\n## Content\n\n", "# T\n\n## Content\n\n") ∧
    isSubstr "no numeral" "# T\n\n## Content\n\n" = false ∧
    (⟨"ol", .txt "no numeral"⟩ : Entry) ∈
      (⟨"T", "", ⟨"", ""⟩, [], [], [],
        [⟨"ol", .txt "no numeral"⟩], [⟨"ol", .txt "no numeral"⟩], []⟩ :
        PageData).content_clean := by
  refine ⟨?_, ?_, by decide, by decide, by decide⟩
  · intro s h
    simp [renderOlItem, h]
  · intro ds rest hne hdd
    have h1 : (ds ++ '.' :: rest).takeWhile Char.isDigit = ds :=
      takeWhile_all_append _ ds '.' rest hdd (by decide)
    have h2 : (ds ++ '.' :: rest).dropWhile Char.isDigit = '.' :: rest :=
      dropWhile_all_append _ ds '.' rest hdd (by decide)
    simp [renderOlItem, parseOlNum, h1, h2, isEmpty_false_of_ne_nil hne]

/-- C7 witness: `"12. abc"` is re-emitted as `"12.  abc"` (the matched rest
keeps its leading space). -/
theorem C7_ol_item_drop_witness :
    renderOlItem "12. abc" = "12.  abc\n\n" := by
  have h := C7_ol_item_drop.2.1 ['1', '2'] [' ', 'a', 'b', 'c']
    (by decide) (by decide)
  simpa using h

/-! ## Claim C10: abstract/content sections gated on the clean variant -/

/-- C10.  In `generate_markdown_content` both outputs gate the Abstract and
Content sections on the *clean* variant: (1) with an empty clean abstract
the annotated abstract text is irrelevant (the section is omitted from both
outputs), (2) with an empty clean content sequence the annotated content
sequence is irrelevant (it is not even rendered, so a malformed annotated
entry cannot raise), (3) when the clean abstract is non-empty the annotated
output does contain the `## Abstract` section with the annotated text, and
(4) concretely, a document whose clean abstract is empty while its
annotated abstract is `"[1]"` renders both Markdown strings without any
Abstract section. -/
theorem C10_sections_gated_on_clean :
    (∀ (d : PageData) (x : String), d.abstract.clean = "" →
      generate_markdown_content d =
        generate_markdown_content { d with abstract := ⟨"", x⟩ }) ∧
    (∀ (d : PageData) (x : List Entry), d.content_clean = [] →
      generate_markdown_content d =
        generate_markdown_content { d with content_cit := x }) ∧
    (∀ (d : PageData) (p : String × String), d.abstract.clean ≠ "" →
      generate_markdown_content d = .ok p →
      ∃ pre post, p.2 =
        pre ++ ("## Abstract\n\n" ++ d.abstract.withCitations ++ "\n\n") ++ post) ∧
    (generate_markdown_content
        ⟨"T", "", ⟨"", "[1]"⟩, [], [], [], [], [], []⟩ =
      .ok ("# T\n\n", "# T\n\n") ∧
      isSubstr "Abstract" "# T\n\n" = false) := by
  refine ⟨?_, ?_, ?_, by decide, by decide⟩
  · intro d x h
    simp [generate_markdown_content, h]
  · intro d x h
    simp [generate_markdown_content, h]
  · intro d p hne h
    unfold generate_markdown_content at h
    simp only [Bind.bind, Except.bind] at h
    by_cases hce : d.content_clean.isEmpty
    · simp only [hce, if_true] at h
      simp only [Pure.pure, Except.pure, Except.ok.injEq] at h
      subst h
      exact ⟨"# " ++ d.title ++ "\n\n" ++
          (if d.short_description ≠ "" then d.short_description ++ "\n\n" else ""),
        (if !d.info_box_clean.isEmpty then
            "## Information\n\n" ++ renderInfoLines d.info_box_cit ++ "\n" else "") ++
          (if !d.toc.isEmpty then
            "## Table of Contents\n\n" ++ renderTocLines d.toc ++ "\n" else "") ++
          ("", "").2 ++
          (if !d.references.isEmpty then
            "## References\n\n" ++ String.join (d.references.map renderRefLine) else ""),
        by simp [hne, String.append_assoc]⟩
    · simp only [hce, Bool.false_eq_true, if_false] at h
      cases hr1 : renderContentList d.content_clean with
      | error e => rw [hr1] at h; simp at h
      | ok c1 =>
        rw [hr1] at h
        dsimp only at h
        cases hr2 : renderContentList d.content_cit with
        | error e => rw [hr2] at h; simp at h
        | ok a1 =>
          rw [hr2] at h
          dsimp only at h
          simp only [Pure.pure, Except.pure, Except.ok.injEq] at h
          subst h
          exact ⟨"# " ++ d.title ++ "\n\n" ++
              (if d.short_description ≠ "" then d.short_description ++ "\n\n" else ""),
            (if !d.info_box_clean.isEmpty then
                "## Information\n\n" ++ renderInfoLines d.info_box_cit ++ "\n" else "") ++
              (if !d.toc.isEmpty then
                "## Table of Contents\n\n" ++ renderTocLines d.toc ++ "\n" else "") ++
              ("## Content\n\n" ++ a1) ++
              (if !d.references.isEmpty then
                "## References\n\n" ++ String.join (d.references.map renderRefLine) else ""),
            by simp [hne, String.append_assoc]⟩

/-- C10 witness: with an empty clean abstract, swapping the annotated
abstract changes neither rendered output. -/
theorem C10_sections_gated_on_clean_witness :
    generate_markdown_content ⟨"T", "", ⟨"", "old"⟩, [], [], [], [], [], []⟩ =
      generate_markdown_content ⟨"T", "", ⟨"", "[9]"⟩, [], [], [], [], [], []⟩ :=
  C10_sections_gated_on_clean.1
    ⟨"T", "", ⟨"", "old"⟩, [], [], [], [], [], []⟩ "[9]" rfl

/-! ## Claim C9: missing anchors resolve to empty defaults -/

/-- C9.  For every structural anchor, absence of the anchor in the parsed
tree is not an error: the title and short description default to `""`, the
abstract to the empty dual text, the info box to empty maps, the TOC and
content to empty sequences (with no exception: the `Except` value is `ok`),
and the reference extractor — whose documented behavior on a missing anchor
is the citation-number fallback — returns the empty list when the document
also has no citation markers to synthesize from.  All extractors are total
functions, so no exception propagates in any of these cases. -/
theorem C9_missing_anchor_defaults :
    (∀ soup : Node,
      soup.find (fun n => tagIs "h1" n && hasClassStr "J-lemma-title" n) = none →
      extract_title soup = "") ∧
    (∀ soup : Node,
      soup.find (fun n => tagIs "div" n && idIs "lemmaDesc" n) = none →
      extract_short_description soup = "") ∧
    (∀ soup : Node,
      soup.find (fun n => tagIs "div" n && hasClassStr "lemmaSummary_yKMC1" n) = none →
      extract_abstract soup = .ok ⟨"", ""⟩) ∧
    (∀ soup : Node,
      soup.find (fun n => tagIs "div" n && hasClassStr "J-basic-info" n) = none →
      extract_info_box soup = .ok ([], [])) ∧
    (∀ soup : Node,
      soup.find (fun n => tagIs "div" n && hasClassStr "catalogList_MR9Nd" n) = none →
      extract_toc soup = []) ∧
    (∀ soup : Node,
      soup.find (fun n => tagIs "div" n && hasClassStr "J-lemma-content" n) = none →
      extract_content soup = .ok ([], [])) ∧
    (∀ soup : Node,
      soup.find (fun n => tagIs "div" n && classStartsWith "lemmaReference" n) = none →
      soup.findAll (tagIs "sup") = [] →
      extract_references soup = []) := by
  refine ⟨fun soup h => ?_, fun soup h => ?_, fun soup h => ?_, fun soup h => ?_,
    fun soup h => ?_, fun soup h => ?_, fun soup h h2 => ?_⟩
  · simp [extract_title, h]
  · simp [extract_short_description, h]
  · simp [extract_abstract, h]
  · simp [extract_info_box, h]
  · simp [extract_toc, h]
  · simp [extract_content, h]
  · simp [extract_references, placeholderReferences, citationNumbersOf, h, h2,
      sortNat, pySortByKey, pySortGo]

/-- C9 witness: on a document with none of the anchors, the abstract and
TOC extractors return their empty defaults. -/
theorem C9_missing_anchor_defaults_witness :
    extract_abstract (Node.elem "html" {} []) = .ok ⟨"", ""⟩ ∧
    extract_toc (Node.elem "html" {} []) = [] :=
  ⟨C9_missing_anchor_defaults.2.2.1 (Node.elem "html" {} []) rfl,
   C9_missing_anchor_defaults.2.2.2.2.1 (Node.elem "html" {} []) rfl⟩

end Baike
